import Mathlib

/-!
Verification of the poker hand evaluation engine.

Shallow embedding of the two evaluator implementations:
  - `Poker`  : src/poker/old/pypoker/v0.1/poker.py
               (`evaluate_hand`, `texas_holdem_score`)
  - `Combos` : src/poker/py/v2/pokercombos.py
               (`evaluate_hand`, the module-level ranking loop)

Cards are pairs of a rank and a suit; Python lists become Lean lists;
a Python exception (ValueError / StopIteration / IndexError) is modelled
as `none` of an `Option` result.
-/

/-- The four suits, as in `self.suits = ['c', 'h', 's', 'd']`. -/
inductive Suit where
  | c | h | s | d
deriving DecidableEq, Repr, Fintype

/-- A playing card `(rank, suit)`; ranks in the deck run 2..14. -/
structure Card where
  rank : Nat
  suit : Suit
deriving DecidableEq, Repr

/-- Python `max(l)` for a nonempty list (0 on the empty list, which the
source never reaches because each use is guarded by a nonemptiness test). -/
def maxR : List Nat → Nat
  | [] => 0
  | a :: as => as.foldr Nat.max a

/-- Python `min(l)` for a nonempty list (0 on the empty list, same guard). -/
def minR : List Nat → Nat
  | [] => 0
  | a :: as => as.foldr Nat.min a

/-- The descending order on `Nat` used for `sorted(xs, reverse=True)`. -/
def geN (a b : Nat) : Prop := b ≤ a

instance : DecidableRel geN := fun a b => inferInstanceAs (Decidable (b ≤ a))
instance : IsTotal Nat geN := ⟨fun a b => (Nat.le_total b a).imp id id⟩
instance : IsTrans Nat geN := ⟨fun _ _ _ h1 h2 => Nat.le_trans h2 h1⟩
instance : IsAntisymm Nat geN := ⟨fun _ _ h1 h2 => Nat.le_antisymm h2 h1⟩

/-- Python `sorted(xs, reverse=True)` on ranks. -/
def sortDesc (l : List Nat) : List Nat := List.insertionSort geN l

/-- Python `sorted(xs)` on ranks. -/
def sortAsc (l : List Nat) : List Nat := List.insertionSort (· ≤ ·) l

/-- Python `<` on two lists (lexicographic, a strict prefix is smaller). -/
def pyLt [LinearOrder α] : List α → List α → Bool
  | _, [] => false
  | [], _ :: _ => true
  | a :: as, b :: bs => if a < b then true else if b < a then false else pyLt as bs

/-- Evaluation result of `pokercombos.evaluate_hand`:
`(hand_type_rank, tiebreaker_tuple)`, lower is better. -/
abbrev EvalT := Nat × List Int

/-- Python `<` on two evaluation tuples (compare category, then tiebreaker). -/
def evalLt (a b : EvalT) : Bool :=
  if a.1 < b.1 then true else if b.1 < a.1 then false else pyLt a.2 b.2

/-- itertools.combinations: all `k`-element sublists, in the original order,
enumerated lexicographically by position. -/
def combos : Nat → List α → List (List α)
  | 0, _ => [[]]
  | _ + 1, [] => []
  | k + 1, x :: xs => (combos k xs).map (x :: ·) ++ combos (k + 1) xs

namespace Poker

/-- `ranks = sorted([card[0] for card in cards], reverse=True)`. -/
def ranksOf (cards : List Card) : List Nat := sortDesc (cards.map Card.rank)

/-- `suits = [card[1] for card in cards]`. -/
def suitsOf (cards : List Card) : List Suit := cards.map Card.suit

/-- `rank_counts = Counter(ranks)` as an association list in Counter
iteration order (first occurrence in the descending-sorted rank list). -/
def items (cards : List Card) : List (Nat × Nat) :=
  (ranksOf cards).dedup.map (fun r => (r, (ranksOf cards).count r))

/-- `rank_counts.values()`. -/
def vals (cards : List Card) : List Nat := (items cards).map (fun p => p.2)

/-- `is_flush = len(set(suits)) == 1`. -/
def isFlush (cards : List Card) : Prop := (suitsOf cards).dedup.length = 1

instance : DecidablePred isFlush :=
  fun cards => inferInstanceAs (Decidable ((suitsOf cards).dedup.length = 1))

/-- `is_straight = len(set(ranks)) == 5 and (max(ranks) - min(ranks) == 4
or ranks == [14, 5, 4, 3, 2])`. -/
def isStraight (cards : List Card) : Prop :=
  (ranksOf cards).dedup.length = 5 ∧
    (maxR (ranksOf cards) - minR (ranksOf cards) = 4 ∨ ranksOf cards = [14, 5, 4, 3, 2])

instance : DecidablePred isStraight :=
  fun cards => inferInstanceAs (Decidable (_ ∧ (_ ∨ _)))

/-- `evaluate_hand` of poker.py: returns `(hand_type, hand_rank, best_cards)`;
`none` models an uncaught Python exception (`max` of an empty sequence). -/
def evaluateHand (cards : List Card) : Option (String × Nat × List Card) :=
  let ranks := ranksOf cards
  if isFlush cards ∧ ranks = [14, 13, 12, 11, 10] then some ("RF", 10, cards)
  else if isFlush cards ∧ isStraight cards then some ("SF", 9, cards)
  else if 4 ∈ vals cards then
    match (items cards).find? (fun p => p.2 = 4) with
    | none => none
    | some fr =>
      match (ranks.filter (fun r => r ≠ fr.1)).max? with
      | none => none
      | some kicker =>
        some ("4k", 8, cards.filter (fun c => c.rank = fr.1 ∨ c.rank = kicker))
  else if 3 ∈ vals cards ∧ 2 ∈ vals cards then
    match (items cards).find? (fun p => p.2 = 3), (items cards).find? (fun p => p.2 = 2) with
    | some tr, some pr =>
      some ("FH", 7, cards.filter (fun c => c.rank = tr.1 ∨ c.rank = pr.1))
    | _, _ => none
  else if isFlush cards then some ("FL", 6, cards)
  else if isStraight cards then some ("ST", 5, cards)
  else if 3 ∈ vals cards then
    match (items cards).find? (fun p => p.2 = 3) with
    | none => none
    | some tr =>
      let kickers := (sortDesc (ranks.filter (fun r => r ≠ tr.1))).take 2
      some ("3K", 4, cards.filter (fun c => c.rank = tr.1 ∨ c.rank ∈ kickers))
  else if 2 ≤ (vals cards).count 2 then
    let pairRanks := (sortDesc (((items cards).filter (fun p => p.2 = 2)).map (fun p => p.1))).take 2
    match (ranks.filter (fun r => r ∉ pairRanks)).max? with
    | none => none
    | some kicker =>
      some ("2P", 3, cards.filter (fun c => c.rank ∈ pairRanks ∨ c.rank = kicker))
  else if 2 ∈ vals cards then
    match (items cards).find? (fun p => p.2 = 2) with
    | none => none
    | some pr =>
      let kickers := (sortDesc (ranks.filter (fun r => r ≠ pr.1))).take 3
      some ("PR", 2, cards.filter (fun c => c.rank = pr.1 ∨ c.rank ∈ kickers))
  else some ("HC", 1, cards)

/-- Accumulator of the `texas_holdem_score` loop:
`best_score = (hand_type, hand_rank, best_cards, ranks)`, initially
`(None, 0, [], [])`. -/
abbrev Score := Option String × Nat × List Card × List Nat

/-- One iteration of the loop body of `texas_holdem_score`. -/
def texasStep (best : Option Score) (combo : List Card) : Option Score :=
  match best, evaluateHand combo with
  | some b, some (t, r, bc) =>
    let rks := sortDesc (bc.map Card.rank)
    if b.2.1 < r ∨ (b.2.1 = r ∧ pyLt b.2.2.2 rks) then some (some t, r, bc, rks)
    else some b
  | _, _ => none

/-- `texas_holdem_score`: raises (`none`) unless given exactly 7 cards, then
keeps the best `(hand_rank, ranks-of-best_cards)` over all 21 5-card combos. -/
def texasHoldemScore (sevenCards : List Card) :
    Option (Option String × Nat × List Card) :=
  if sevenCards.length = 7 then
    ((combos 5 sevenCards).foldl texasStep (some (none, 0, [], []))).map
      (fun b => (b.1, b.2.1, b.2.2.1))
  else none

end Poker

namespace Combos

/-- `ranks = [card[0] for card in hand]`. -/
def ranksOf (hand : List Card) : List Nat := hand.map Card.rank

/-- `suits = [card[1] for card in hand]`. -/
def suitsOf (hand : List Card) : List Suit := hand.map Card.suit

/-- `is_flush(suits)`: `len(set(suits)) == 1`. -/
def isFlush (hand : List Card) : Prop := (suitsOf hand).dedup.length = 1

instance : DecidablePred isFlush :=
  fun hand => inferInstanceAs (Decidable ((suitsOf hand).dedup.length = 1))

/-- `is_straight(ranks)`: `len(set(ranks)) == 5 and (max(ranks) - min(ranks)
== 4 or sorted(ranks) == [2, 3, 4, 5, 14])`. -/
def isStraight (hand : List Card) : Prop :=
  (ranksOf hand).dedup.length = 5 ∧
    (maxR (ranksOf hand) - minR (ranksOf hand) = 4 ∨ sortAsc (ranksOf hand) = [2, 3, 4, 5, 14])

instance : DecidablePred isStraight :=
  fun hand => inferInstanceAs (Decidable (_ ∧ (_ ∨ _)))

/-- The sort key order of `get_rank_counts`: items `(rank, count)` sorted by
`(count, rank)` descending (`key=lambda x: (x[1], x[0]), reverse=True`). -/
def itemGe (a b : Nat × Nat) : Prop := b.2 < a.2 ∨ (a.2 = b.2 ∧ b.1 ≤ a.1)

instance : DecidableRel itemGe :=
  fun a b => inferInstanceAs (Decidable (_ ∨ (_ ∧ _)))

instance : IsTotal (Nat × Nat) itemGe :=
  ⟨fun a b => by
    unfold itemGe
    rcases Nat.lt_trichotomy a.2 b.2 with h | h | h
    · exact Or.inr (Or.inl h)
    · rcases Nat.le_total b.1 a.1 with h1 | h1
      · exact Or.inl (Or.inr ⟨h, h1⟩)
      · exact Or.inr (Or.inr ⟨h.symm, h1⟩)
    · exact Or.inl (Or.inl h)⟩

instance : IsTrans (Nat × Nat) itemGe :=
  ⟨fun a b c h1 h2 => by
    unfold itemGe at *
    rcases h1 with h1 | ⟨h1, h1'⟩ <;> rcases h2 with h2 | ⟨h2, h2'⟩
    · exact Or.inl (Nat.lt_trans h2 h1)
    · exact Or.inl (h2 ▸ h1)
    · exact Or.inl (h1 ▸ h2)
    · exact Or.inr ⟨h1.trans h2, Nat.le_trans h2' h1'⟩⟩

instance : IsAntisymm (Nat × Nat) itemGe :=
  ⟨fun a b h1 h2 => by
    unfold itemGe at *
    rcases h1 with h1 | ⟨h1, h1'⟩ <;> rcases h2 with h2 | ⟨h2, h2'⟩
    · exact absurd h1 (Nat.lt_asymm h2)
    · exact absurd h1 (by omega)
    · exact absurd h2 (by omega)
    · exact Prod.ext (Nat.le_antisymm h2' h1') h1⟩

/-- `get_rank_counts(ranks)`: Counter items fully sorted by `(count, rank)`
descending.  (The Counter's own iteration order is irrelevant here because
the keys are distinct, so the sort key `(count, rank)` is a total order on
the items and the sorted result is unique.) -/
def items (hand : List Card) : List (Nat × Nat) :=
  List.insertionSort itemGe
    ((ranksOf hand).dedup.map (fun r => (r, (ranksOf hand).count r)))

/-- `straight_high`: 5 for the wheel `A-2-3-4-5`, else `max(ranks)`.
(In the source this local is only assigned when `is_straight_hand` holds,
which is the only context where it is read.) -/
def straightHigh (hand : List Card) : Nat :=
  if sortAsc (ranksOf hand) = [2, 3, 4, 5, 14] then 5 else maxR (ranksOf hand)

/-- `evaluate_hand` of pokercombos.py: `(hand_type_rank, tiebreaker_tuple)`,
lower is better; `none` models an IndexError on `rank_counts[i]`. -/
def evaluateHand (hand : List Card) : Option EvalT :=
  let ranks := ranksOf hand
  if isStraight hand ∧ isFlush hand then
    if sortAsc ranks = [10, 11, 12, 13, 14] ∧ isFlush hand then some (0, [])
    else some (1, [-(straightHigh hand : Int)])
  else
    match items hand with
    | [] => none
    | i0 :: rest0 =>
      if i0.2 = 4 then
        match rest0 with
        | [] => none
        | i1 :: _ => some (2, [-(i0.1 : Int), -(i1.1 : Int)])
      else if i0.2 = 3 then
        -- the full-house test `rank_counts[0][1] == 3 and rank_counts[1][1] == 2`
        -- reads rank_counts[1] whenever the first conjunct holds
        match rest0 with
        | [] => none
        | i1 :: rest1 =>
          if i1.2 = 2 then some (3, [-(i0.1 : Int), -(i1.1 : Int)])
          else if isFlush hand then some (4, (sortDesc ranks).map (fun r => -(r : Int)))
          else if isStraight hand then some (5, [-(straightHigh hand : Int)])
          else
            match rest1 with
            | [] => none
            | i2 :: _ =>
              some (6, [-(i0.1 : Int), -(Nat.max i1.1 i2.1 : Int), -(Nat.min i1.1 i2.1 : Int)])
      else if isFlush hand then some (4, (sortDesc ranks).map (fun r => -(r : Int)))
      else if isStraight hand then some (5, [-(straightHigh hand : Int)])
      else if i0.2 = 2 then
        match rest0 with
        | [] => none
        | i1 :: rest1 =>
          if i1.2 = 2 then
            match rest1 with
            | [] => none
            | i2 :: _ =>
              some (7, [-(Nat.max i0.1 i1.1 : Int), -(Nat.min i0.1 i1.1 : Int), -(i2.1 : Int)])
          else
            match rest1 with
            | [] => none
            | i2 :: rest2 =>
              match rest2 with
              | [] => none
              | i3 :: _ =>
                some (8, -(i0.1 : Int) ::
                  (sortDesc [i1.1, i2.1, i3.1]).map (fun r => -(r : Int)))
      else some (9, (sortDesc ranks).map (fun r => -(r : Int)))

/-- `hand_evaluations = [(hand, evaluate_hand(hand)) for hand in all_hands]`;
`none` if any evaluation raises. -/
def handEvaluations : List (List Card) → Option (List (List Card × EvalT))
  | [] => some []
  | h :: hs =>
    match evaluateHand h, handEvaluations hs with
    | some e, some rest => some ((h, e) :: rest)
    | _, _ => none

/-- The sort order of `hand_evaluations.sort(key=lambda x: x[1])`:
ascending by evaluation (nonstrict, via the strict tuple order). -/
def evalPairLe (a b : List Card × EvalT) : Prop := evalLt b.2 a.2 = false

instance : DecidableRel evalPairLe :=
  fun a b => inferInstanceAs (Decidable (_ = false))

/-- The rank-assignment loop over the sorted evaluations: carries the
enumeration index `i` and `(prev_evaluation, current_rank)`. -/
def rankPass : List (List Card × EvalT) → Nat → Option (EvalT × Nat) →
    List ((List Card × EvalT) × Nat)
  | [], _, _ => []
  | (h, e) :: rest, i, none =>
    ((h, e), i + 1) :: rankPass rest (i + 1) (some (e, i + 1))
  | (h, e) :: rest, i, some (pe, pr) =>
    let r := if e = pe then pr else i + 1
    ((h, e), r) :: rankPass rest (i + 1) (some (e, r))

/-- The module-level ranking computation: evaluate every hand, sort by
evaluation (best first), assign dense competition ranks. -/
def rankAll (hands : List (List Card)) : Option (List ((List Card × EvalT) × Nat)) :=
  (handEvaluations hands).map
    (fun pairs => rankPass (List.insertionSort evalPairLe pairs) 0 none)

end Combos

/-! ### Order lemmas for the Python list and tuple comparisons -/

theorem pyLt_irrefl [LinearOrder α] : ∀ l : List α, pyLt l l = false
  | [] => rfl
  | a :: as => by simp [pyLt, lt_irrefl, pyLt_irrefl as]

theorem pyLt_asymm [LinearOrder α] :
    ∀ l1 l2 : List α, pyLt l1 l2 = true → pyLt l2 l1 = false
  | _, [], h => by simp [pyLt] at h
  | [], _ :: _, _ => rfl
  | a :: as, b :: bs, h => by
    rcases lt_trichotomy a b with hc | hc | hc
    · simp [pyLt, hc, asymm hc]
    · subst hc
      simp only [pyLt, lt_irrefl, if_false] at h ⊢
      exact pyLt_asymm as bs h
    · simp [pyLt, hc, asymm hc] at h

theorem pyLt_trichot [LinearOrder α] :
    ∀ l1 l2 : List α, pyLt l1 l2 = true ∨ l1 = l2 ∨ pyLt l2 l1 = true
  | [], [] => Or.inr (Or.inl rfl)
  | [], _ :: _ => Or.inl rfl
  | _ :: _, [] => Or.inr (Or.inr rfl)
  | a :: as, b :: bs => by
    rcases lt_trichotomy a b with hc | hc | hc
    · exact Or.inl (by simp [pyLt, hc])
    · subst hc
      rcases pyLt_trichot as bs with h | h | h
      · exact Or.inl (by simp [pyLt, lt_irrefl, h])
      · exact Or.inr (Or.inl (by rw [h]))
      · exact Or.inr (Or.inr (by simp [pyLt, lt_irrefl, h]))
    · exact Or.inr (Or.inr (by simp [pyLt, hc]))

theorem pyLt_trans [LinearOrder α] :
    ∀ l1 l2 l3 : List α, pyLt l1 l2 = true → pyLt l2 l3 = true → pyLt l1 l3 = true
  | _, _, [], _, h2 => by simp [pyLt] at h2
  | _, [], _ :: _, h1, _ => by simp [pyLt] at h1
  | [], _ :: _, _ :: _, _, _ => rfl
  | a :: as, b :: bs, c :: cs, h1, h2 => by
    rcases lt_trichotomy a b with hab | hab | hab
    · rcases lt_trichotomy b c with hbc | hbc | hbc
      · simp [pyLt, lt_trans hab hbc]
      · subst hbc; simp [pyLt, hab]
      · simp [pyLt, hbc, asymm hbc] at h2
    · subst hab
      rcases lt_trichotomy a c with hbc | hbc | hbc
      · simp [pyLt, hbc]
      · subst hbc
        simp only [pyLt, lt_irrefl, if_false] at h1 h2 ⊢
        exact pyLt_trans as bs cs h1 h2
      · simp [pyLt, hbc, asymm hbc] at h2
    · simp [pyLt, hab, asymm hab] at h1

theorem evalLt_irrefl (a : EvalT) : evalLt a a = false := by
  simp [evalLt, pyLt_irrefl]

theorem evalLt_asymm {a b : EvalT} (h : evalLt a b = true) : evalLt b a = false := by
  unfold evalLt at *
  rcases lt_trichotomy a.1 b.1 with hc | hc | hc
  · simp [hc, asymm hc]
  · simp only [hc, lt_irrefl, if_false] at h ⊢
    exact pyLt_asymm _ _ h
  · simp [hc, asymm hc] at h

theorem evalLt_trichot (a b : EvalT) :
    evalLt a b = true ∨ a = b ∨ evalLt b a = true := by
  unfold evalLt
  rcases lt_trichotomy a.1 b.1 with hc | hc | hc
  · exact Or.inl (by simp [hc])
  · rcases pyLt_trichot a.2 b.2 with h | h | h
    · exact Or.inl (by simp [hc, lt_irrefl, h])
    · exact Or.inr (Or.inl (Prod.ext hc h))
    · exact Or.inr (Or.inr (by simp [hc, lt_irrefl, h]))
  · exact Or.inr (Or.inr (by simp [hc]))

theorem evalLt_trans {a b c : EvalT} (h1 : evalLt a b = true)
    (h2 : evalLt b c = true) : evalLt a c = true := by
  unfold evalLt at *
  rcases lt_trichotomy a.1 b.1 with hab | hab | hab
  · rcases lt_trichotomy b.1 c.1 with hbc | hbc | hbc
    · simp [lt_trans hab hbc]
    · simp [hbc ▸ hab]
    · simp [hbc, asymm hbc] at h2
  · rcases lt_trichotomy b.1 c.1 with hbc | hbc | hbc
    · simp [hab ▸ hbc]
    · simp only [hab, hbc, lt_irrefl, if_false] at *
      exact pyLt_trans _ _ _ h1 h2
    · simp [hbc, asymm hbc] at h2
  · simp [hab, asymm hab] at h1

/-! ### Lemmas on `maxR` and `minR` -/

theorem foldr_max_le {as : List Nat} : ∀ {a x : Nat}, x ∈ a :: as → x ≤ as.foldr Nat.max a := by
  induction as with
  | nil => intro a x hx; simp at hx; simp [hx]
  | cons b bs ih =>
    intro a x hx
    simp only [List.foldr_cons]
    rcases List.mem_cons.1 hx with hx | hx
    · subst hx
      exact le_max_of_le_right (ih (List.mem_cons_self _ _))
    · rcases List.mem_cons.1 hx with hx | hx
      · subst hx; exact Nat.le_max_left _ _
      · exact le_max_of_le_right (ih (List.mem_cons_of_mem _ hx))

theorem foldr_max_mem {as : List Nat} : ∀ {a : Nat}, as.foldr Nat.max a ∈ a :: as := by
  induction as with
  | nil => intro a; simp
  | cons b bs ih =>
    intro a
    simp only [List.foldr_cons]
    rw [show Nat.max b (List.foldr Nat.max a bs) = max b (List.foldr Nat.max a bs) from rfl]
    rcases Nat.le_total b (bs.foldr Nat.max a) with h | h
    · rw [max_eq_right h]
      rcases List.mem_cons.1 (ih (a := a)) with h2 | h2
      · simp [h2]
      · simp [List.mem_cons_of_mem, h2]
    · rw [max_eq_left h]
      simp

theorem le_maxR {l : List Nat} {x : Nat} (hx : x ∈ l) : x ≤ maxR l := by
  cases l with
  | nil => simp at hx
  | cons a as => exact foldr_max_le hx

theorem maxR_mem {l : List Nat} (h : l ≠ []) : maxR l ∈ l := by
  cases l with
  | nil => exact absurd rfl h
  | cons a as => exact foldr_max_mem

theorem maxR_eq_of_perm {l1 l2 : List Nat} (h : l1.Perm l2) : maxR l1 = maxR l2 := by
  rcases eq_or_ne l1 [] with h1 | h1
  · subst h1; rw [← h.nil_eq]
  · have h2 : l2 ≠ [] := by
      intro hn; subst hn; exact h1 h.eq_nil
    exact Nat.le_antisymm (le_maxR (h.mem_iff.1 (maxR_mem h1)))
      (le_maxR (h.mem_iff.2 (maxR_mem h2)))

theorem foldr_min_le {as : List Nat} : ∀ {a x : Nat}, x ∈ a :: as → as.foldr Nat.min a ≤ x := by
  induction as with
  | nil => intro a x hx; simp at hx; simp [hx]
  | cons b bs ih =>
    intro a x hx
    simp only [List.foldr_cons]
    rcases List.mem_cons.1 hx with hx | hx
    · subst hx
      exact min_le_of_right_le (ih (List.mem_cons_self _ _))
    · rcases List.mem_cons.1 hx with hx | hx
      · subst hx; exact Nat.min_le_left _ _
      · exact min_le_of_right_le (ih (List.mem_cons_of_mem _ hx))

theorem foldr_min_mem {as : List Nat} : ∀ {a : Nat}, as.foldr Nat.min a ∈ a :: as := by
  induction as with
  | nil => intro a; simp
  | cons b bs ih =>
    intro a
    simp only [List.foldr_cons]
    rw [show Nat.min b (List.foldr Nat.min a bs) = min b (List.foldr Nat.min a bs) from rfl]
    rcases Nat.le_total b (bs.foldr Nat.min a) with h | h
    · rw [min_eq_left h]
      simp
    · rw [min_eq_right h]
      rcases List.mem_cons.1 (ih (a := a)) with h2 | h2
      · simp [h2]
      · simp [List.mem_cons_of_mem, h2]

theorem minR_le {l : List Nat} {x : Nat} (hx : x ∈ l) : minR l ≤ x := by
  cases l with
  | nil => simp at hx
  | cons a as => exact foldr_min_le hx

theorem minR_mem {l : List Nat} (h : l ≠ []) : minR l ∈ l := by
  cases l with
  | nil => exact absurd rfl h
  | cons a as => exact foldr_min_mem

theorem minR_eq_of_perm {l1 l2 : List Nat} (h : l1.Perm l2) : minR l1 = minR l2 := by
  rcases eq_or_ne l1 [] with h1 | h1
  · subst h1; rw [← h.nil_eq]
  · have h2 : l2 ≠ [] := by
      intro hn; subst hn; exact h1 h.eq_nil
    exact Nat.le_antisymm (minR_le (h.mem_iff.2 (minR_mem h2)))
      (minR_le (h.mem_iff.1 (minR_mem h1)))

/-- Two permuted lists have the same insertion sort (for a decidable total
antisymmetric transitive relation). -/
theorem insertionSort_eq_of_perm {α : Type} {r : α → α → Prop} [DecidableRel r]
    [IsAntisymm α r] [IsTotal α r] [IsTrans α r] {l1 l2 : List α} (h : l1.Perm l2) :
    List.insertionSort r l1 = List.insertionSort r l2 :=
  List.eq_of_perm_of_sorted
    ((List.perm_insertionSort r l1).trans (h.trans (List.perm_insertionSort r l2).symm))
    (List.sorted_insertionSort r l1) (List.sorted_insertionSort r l2)

theorem sortDesc_eq_of_perm {l1 l2 : List Nat} (h : l1.Perm l2) :
    sortDesc l1 = sortDesc l2 := insertionSort_eq_of_perm h

theorem sortAsc_eq_of_perm {l1 l2 : List Nat} (h : l1.Perm l2) :
    sortAsc l1 = sortAsc l2 := insertionSort_eq_of_perm h


/-! ### Concrete claim facts -/

/-- C8: on the seven cards AC AH AS AD KC KH 2D, `texas_holdem_score` returns
Four of a Kind (label `4k`, rank 8) whose best cards are the four aces plus a
king — the kicker is the king, not the 2 — and the classifier tiebreak of the
returned five cards is quad rank 14 with kicker 13. -/
theorem c8_best_hand_quad_aces_king_kicker :
    Poker.texasHoldemScore
      [⟨14, .c⟩, ⟨14, .h⟩, ⟨14, .s⟩, ⟨14, .d⟩, ⟨13, .c⟩, ⟨13, .h⟩, ⟨2, .d⟩] =
      some (some "4k", 8, [⟨14, .c⟩, ⟨14, .h⟩, ⟨14, .s⟩, ⟨14, .d⟩, ⟨13, .c⟩]) ∧
    Combos.evaluateHand [⟨14, .c⟩, ⟨14, .h⟩, ⟨14, .s⟩, ⟨14, .d⟩, ⟨13, .c⟩] =
      some (2, [-14, -13]) := by decide

/-- C1 (code bug witness): on the seven cards AS 2C 3H 4S 5D 6C 9D,
`texas_holdem_score` returns the A-2-3-4-5 wheel straight, although the
6-high straight 2-3-4-5-6 is also among the 21 five-card subsets and is
strictly better under the category/tiebreak order (straight-high 6 beats
straight-high 5, i.e. `evalLt (5, [-6]) (5, [-5])`): the loop breaks ties
between equal categories by the raw descending ranks of `best_cards`, where
the wheel's ace counts as 14. -/
theorem c1_texas_score_picks_wheel_over_six_high :
    Poker.texasHoldemScore
      [⟨14, .s⟩, ⟨2, .c⟩, ⟨3, .h⟩, ⟨4, .s⟩, ⟨5, .d⟩, ⟨6, .c⟩, ⟨9, .d⟩] =
      some (some "ST", 5, [⟨14, .s⟩, ⟨2, .c⟩, ⟨3, .h⟩, ⟨4, .s⟩, ⟨5, .d⟩]) ∧
    ([⟨2, .c⟩, ⟨3, .h⟩, ⟨4, .s⟩, ⟨5, .d⟩, ⟨6, .c⟩] : List Card) ∈
      combos 5 [⟨14, .s⟩, ⟨2, .c⟩, ⟨3, .h⟩, ⟨4, .s⟩, ⟨5, .d⟩, ⟨6, .c⟩, ⟨9, .d⟩] ∧
    Combos.evaluateHand [⟨14, .s⟩, ⟨2, .c⟩, ⟨3, .h⟩, ⟨4, .s⟩, ⟨5, .d⟩] =
      some (5, [-5]) ∧
    Combos.evaluateHand [⟨2, .c⟩, ⟨3, .h⟩, ⟨4, .s⟩, ⟨5, .d⟩, ⟨6, .c⟩] =
      some (5, [-6]) ∧
    evalLt (5, [-6]) (5, [-5]) = true := by decide

/-- C3 counterexample: neither classifier validates the hand size — a 4-card
input is classified without any error being raised, refuting the claim that
classification fails exactly on inputs of length other than 5. -/
theorem c3_counterexample_four_cards_classified :
    ([⟨2, .c⟩, ⟨3, .c⟩, ⟨4, .c⟩, ⟨5, .c⟩] : List Card).length ≠ 5 ∧
    (Poker.evaluateHand [⟨2, .c⟩, ⟨3, .c⟩, ⟨4, .c⟩, ⟨5, .c⟩]).isSome = true ∧
    (Combos.evaluateHand [⟨2, .c⟩, ⟨3, .c⟩, ⟨4, .c⟩, ⟨5, .c⟩]).isSome = true := by
  decide

/-- C6 counterexample: the mixed-suit hand 10C JH QS KD AC has ranks
10-J-Q-K-A but is classified as a Straight (label `ST`, category 5,
ace-high) by both implementations, not as HighCard. -/
theorem c6_counterexample_broadway_offsuit_is_straight :
    Poker.evaluateHand [⟨10, .c⟩, ⟨11, .h⟩, ⟨12, .s⟩, ⟨13, .d⟩, ⟨14, .c⟩] =
      some ("ST", 5, [⟨10, .c⟩, ⟨11, .h⟩, ⟨12, .s⟩, ⟨13, .d⟩, ⟨14, .c⟩]) ∧
    Combos.evaluateHand [⟨10, .c⟩, ⟨11, .h⟩, ⟨12, .s⟩, ⟨13, .d⟩, ⟨14, .c⟩] =
      some (5, [-14]) := by decide

/-! ### Permutation congruence for the derived rank data -/

theorem poker_ranksOf_eq {hand : List Card} {L : List Nat}
    (h : (hand.map Card.rank).Perm L) : Poker.ranksOf hand = sortDesc L := by
  unfold Poker.ranksOf
  exact sortDesc_eq_of_perm h

theorem combos_sortAsc_eq {hand : List Card} {L : List Nat}
    (h : (hand.map Card.rank).Perm L) : sortAsc (Combos.ranksOf hand) = sortAsc L := by
  unfold Combos.ranksOf
  exact sortAsc_eq_of_perm h

theorem combos_maxR_eq {hand : List Card} {L : List Nat}
    (h : (hand.map Card.rank).Perm L) : maxR (Combos.ranksOf hand) = maxR L := by
  unfold Combos.ranksOf
  exact maxR_eq_of_perm h

theorem combos_minR_eq {hand : List Card} {L : List Nat}
    (h : (hand.map Card.rank).Perm L) : minR (Combos.ranksOf hand) = minR L := by
  unfold Combos.ranksOf
  exact minR_eq_of_perm h

theorem combos_dedup_len {hand : List Card} {L : List Nat}
    (h : (hand.map Card.rank).Perm L) :
    (Combos.ranksOf hand).dedup.length = L.dedup.length := by
  unfold Combos.ranksOf
  exact h.dedup.length_eq

theorem combos_items_congr {hand : List Card} {L : List Nat}
    (h : (hand.map Card.rank).Perm L) :
    Combos.items hand =
      List.insertionSort Combos.itemGe (L.dedup.map (fun r => (r, L.count r))) := by
  unfold Combos.items Combos.ranksOf
  apply insertionSort_eq_of_perm
  have hcnt : ∀ r ∈ (hand.map Card.rank).dedup,
      (r, (hand.map Card.rank).count r) = (r, L.count r) :=
    fun r _ => by rw [h.count_eq r]
  rw [List.map_congr_left hcnt]
  exact h.dedup.map _

/-- C2: a 5-card hand whose rank multiset is the wheel A-2-3-4-5 and whose
suits are not all equal classifies as a Straight with straight-high 5 (the
`pokercombos` evaluation is `(5, (-5,))`, and poker.py labels it `ST`),
and any 6-high straight hand evaluates to `(5, (-6,))`, which is strictly
better, so the wheel orders strictly below the 6-high straight. -/
theorem c2_wheel_is_five_high_straight (hand : List Card)
    (hperm : (hand.map Card.rank).Perm [14, 2, 3, 4, 5])
    (hsuits : (hand.map Card.suit).dedup.length ≠ 1) :
    Combos.evaluateHand hand = some (5, [-5]) ∧
    Poker.evaluateHand hand = some ("ST", 5, hand) ∧
    ∀ hand6 : List Card, (hand6.map Card.rank).Perm [6, 5, 4, 3, 2] →
      (hand6.map Card.suit).dedup.length ≠ 1 →
      Combos.evaluateHand hand6 = some (5, [-6]) ∧
      evalLt (5, [-6]) (5, [-5]) = true := by
  have hfl : ¬ Combos.isFlush hand := hsuits
  have hAr : sortAsc (Combos.ranksOf hand) = [2, 3, 4, 5, 14] := by
    rw [combos_sortAsc_eq hperm]; decide
  have hlen : (Combos.ranksOf hand).dedup.length = 5 := by
    rw [combos_dedup_len hperm]; decide
  have hst : Combos.isStraight hand := ⟨hlen, Or.inr hAr⟩
  have hitems : Combos.items hand = [(14, 1), (5, 1), (4, 1), (3, 1), (2, 1)] := by
    rw [combos_items_congr hperm]; decide
  have hsh : Combos.straightHigh hand = 5 := by
    unfold Combos.straightHigh
    rw [hAr, if_pos rfl]
  refine ⟨?_, ?_, ?_⟩
  · simp [Combos.evaluateHand, hitems, hsh, hst, hfl]
  · have hr : Poker.ranksOf hand = [14, 5, 4, 3, 2] := by
      rw [poker_ranksOf_eq hperm]; decide
    have hvals : Poker.vals hand = [1, 1, 1, 1, 1] := by
      unfold Poker.vals Poker.items
      rw [hr]
      decide
    have hpfl : ¬ Poker.isFlush hand := hsuits
    have hpst : Poker.isStraight hand := by
      unfold Poker.isStraight
      rw [hr]
      decide
    simp [Poker.evaluateHand, hr, hvals, hpst, hpfl]
  · intro hand6 hperm6 hsuits6
    have hfl6 : ¬ Combos.isFlush hand6 := hsuits6
    have hAr6 : sortAsc (Combos.ranksOf hand6) = [2, 3, 4, 5, 6] := by
      rw [combos_sortAsc_eq hperm6]; decide
    have hlen6 : (Combos.ranksOf hand6).dedup.length = 5 := by
      rw [combos_dedup_len hperm6]; decide
    have hmax6 : maxR (Combos.ranksOf hand6) = 6 := by
      rw [combos_maxR_eq hperm6]; decide
    have hmin6 : minR (Combos.ranksOf hand6) = 2 := by
      rw [combos_minR_eq hperm6]; decide
    have hst6 : Combos.isStraight hand6 := ⟨hlen6, Or.inl (by rw [hmax6, hmin6])⟩
    have hitems6 : Combos.items hand6 = [(6, 1), (5, 1), (4, 1), (3, 1), (2, 1)] := by
      rw [combos_items_congr hperm6]; decide
    have hsh6 : Combos.straightHigh hand6 = 6 := by
      unfold Combos.straightHigh
      rw [hAr6, hmax6]
      decide
    constructor
    · simp [Combos.evaluateHand, hitems6, hsh6, hst6, hfl6]
    · decide

/-- Witness for C2 at the concrete wheel hand AC 2D 3H 4S 5C and the
concrete 6-high straight 6C 5D 4H 3S 2C. -/
theorem c2_wheel_is_five_high_straight_witness :
    Combos.evaluateHand [⟨14, .c⟩, ⟨2, .d⟩, ⟨3, .h⟩, ⟨4, .s⟩, ⟨5, .c⟩] = some (5, [-5]) ∧
    Combos.evaluateHand [⟨6, .c⟩, ⟨5, .d⟩, ⟨4, .h⟩, ⟨3, .s⟩, ⟨2, .c⟩] = some (5, [-6]) := by
  have h := c2_wheel_is_five_high_straight
    [⟨14, .c⟩, ⟨2, .d⟩, ⟨3, .h⟩, ⟨4, .s⟩, ⟨5, .c⟩] (by decide) (by decide)
  exact ⟨h.1, (h.2.2 [⟨6, .c⟩, ⟨5, .d⟩, ⟨4, .h⟩, ⟨3, .s⟩, ⟨2, .c⟩] (by decide) (by decide)).1⟩

/-- C6 (amended): a 5-card hand with ranks 10-J-Q-K-A and all suits equal
classifies as a Royal Flush in both implementations; the same ranks with
mixed suits classify as an ace-high Straight (not HighCard). -/
theorem c6_royal_flush_and_broadway (hand : List Card)
    (hperm : (hand.map Card.rank).Perm [14, 13, 12, 11, 10]) :
    ((hand.map Card.suit).dedup.length = 1 →
      Poker.evaluateHand hand = some ("RF", 10, hand) ∧
      Combos.evaluateHand hand = some (0, [])) ∧
    ((hand.map Card.suit).dedup.length ≠ 1 →
      Poker.evaluateHand hand = some ("ST", 5, hand) ∧
      Combos.evaluateHand hand = some (5, [-14])) := by
  have hr : Poker.ranksOf hand = [14, 13, 12, 11, 10] := by
    rw [poker_ranksOf_eq hperm]; decide
  have hAr : sortAsc (Combos.ranksOf hand) = [10, 11, 12, 13, 14] := by
    rw [combos_sortAsc_eq hperm]; decide
  have hlen : (Combos.ranksOf hand).dedup.length = 5 := by
    rw [combos_dedup_len hperm]; decide
  have hmax : maxR (Combos.ranksOf hand) = 14 := by
    rw [combos_maxR_eq hperm]; decide
  have hmin : minR (Combos.ranksOf hand) = 10 := by
    rw [combos_minR_eq hperm]; decide
  have hcst : Combos.isStraight hand := ⟨hlen, Or.inl (by rw [hmax, hmin])⟩
  have hitems : Combos.items hand = [(14, 1), (13, 1), (12, 1), (11, 1), (10, 1)] := by
    rw [combos_items_congr hperm]; decide
  have hsh : Combos.straightHigh hand = 14 := by
    unfold Combos.straightHigh
    rw [hAr, hmax]
    decide
  constructor
  · intro hsuits
    have hpfl : Poker.isFlush hand := hsuits
    have hcfl : Combos.isFlush hand := hsuits
    constructor
    · simp [Poker.evaluateHand, hr, hpfl]
    · simp [Combos.evaluateHand, hAr, hcst, hcfl]
  · intro hsuits
    have hpfl : ¬ Poker.isFlush hand := hsuits
    have hcfl : ¬ Combos.isFlush hand := hsuits
    have hvals : Poker.vals hand = [1, 1, 1, 1, 1] := by
      unfold Poker.vals Poker.items
      rw [hr]
      decide
    have hpst : Poker.isStraight hand := by
      unfold Poker.isStraight
      rw [hr]
      decide
    constructor
    · simp [Poker.evaluateHand, hr, hvals, hpst, hpfl]
    · simp [Combos.evaluateHand, hitems, hsh, hcst, hcfl]

/-- Witness for C6 at the all-spades royal flush and at a mixed-suit
broadway hand. -/
theorem c6_royal_flush_and_broadway_witness :
    Poker.evaluateHand [⟨10, .s⟩, ⟨11, .s⟩, ⟨12, .s⟩, ⟨13, .s⟩, ⟨14, .s⟩] =
      some ("RF", 10, [⟨10, .s⟩, ⟨11, .s⟩, ⟨12, .s⟩, ⟨13, .s⟩, ⟨14, .s⟩]) ∧
    Combos.evaluateHand [⟨10, .c⟩, ⟨11, .h⟩, ⟨12, .s⟩, ⟨13, .d⟩, ⟨14, .c⟩] =
      some (5, [-14]) := by
  refine ⟨?_, ?_⟩
  · exact ((c6_royal_flush_and_broadway
      [⟨10, .s⟩, ⟨11, .s⟩, ⟨12, .s⟩, ⟨13, .s⟩, ⟨14, .s⟩] (by decide)).1 (by decide)).1
  · exact ((c6_royal_flush_and_broadway
      [⟨10, .c⟩, ⟨11, .h⟩, ⟨12, .s⟩, ⟨13, .d⟩, ⟨14, .c⟩] (by decide)).2 (by decide)).2

/-! ### Counting infrastructure -/

/-- The counts of the distinct values of a list sum to its length. -/
theorem sum_dedup_counts (l : List Nat) :
    (l.dedup.map (fun r => l.count r)).sum = l.length := by
  have hfs : l.dedup.toFinset = l.toFinset := by
    ext a
    simp [List.mem_toFinset, List.mem_dedup]
  rw [← List.sum_toFinset _ (List.nodup_dedup l), hfs]
  exact List.sum_toFinset_count_eq_length l

theorem poker_ranksOf_length (cards : List Card) :
    (Poker.ranksOf cards).length = cards.length := by
  unfold Poker.ranksOf sortDesc
  rw [(List.perm_insertionSort geN _).length_eq, List.length_map]

theorem poker_items_mem {cards : List Card} {q : Nat × Nat}
    (h : q ∈ Poker.items cards) :
    q.1 ∈ Poker.ranksOf cards ∧ q.2 = (Poker.ranksOf cards).count q.1 := by
  unfold Poker.items at h
  rcases List.mem_map.1 h with ⟨r, hr, hq⟩
  cases hq
  exact ⟨List.mem_dedup.1 hr, rfl⟩

theorem poker_vals_sum (cards : List Card) :
    (Poker.vals cards).sum = cards.length := by
  unfold Poker.vals Poker.items
  rw [List.map_map]
  have : ((fun p : Nat × Nat => p.2) ∘ fun r => (r, (Poker.ranksOf cards).count r)) =
      fun r => (Poker.ranksOf cards).count r := rfl
  rw [this, sum_dedup_counts, poker_ranksOf_length]

theorem combos_ranksOf_length (hand : List Card) :
    (Combos.ranksOf hand).length = hand.length := List.length_map _ _

theorem combos_items_perm (hand : List Card) :
    (Combos.items hand).Perm
      ((Combos.ranksOf hand).dedup.map (fun r => (r, (Combos.ranksOf hand).count r))) :=
  List.perm_insertionSort _ _

theorem combos_items_sorted (hand : List Card) :
    List.Sorted Combos.itemGe (Combos.items hand) :=
  List.sorted_insertionSort _ _

theorem combos_items_mem {hand : List Card} {q : Nat × Nat}
    (h : q ∈ Combos.items hand) :
    q.1 ∈ Combos.ranksOf hand ∧ q.2 = (Combos.ranksOf hand).count q.1 := by
  have h2 := (combos_items_perm hand).subset h
  rcases List.mem_map.1 h2 with ⟨r, hr, hq⟩
  cases hq
  exact ⟨List.mem_dedup.1 hr, rfl⟩

theorem combos_items_sum (hand : List Card) :
    ((Combos.items hand).map (fun p => p.2)).sum = hand.length := by
  rw [((combos_items_perm hand).map (fun p => p.2)).sum_eq, List.map_map]
  have : ((fun p : Nat × Nat => p.2) ∘ fun r => (r, (Combos.ranksOf hand).count r)) =
      fun r => (Combos.ranksOf hand).count r := rfl
  rw [this, sum_dedup_counts, combos_ranksOf_length]

/-- poker.py's `evaluate_hand` completes without raising on every 5-card
input: every `next(...)` generator is guarded by a membership test and every
`max(...)` over the remaining ranks is over a nonempty sequence. -/
theorem poker_evaluateHand_isSome {cards : List Card} (h5 : cards.length = 5) :
    (Poker.evaluateHand cards).isSome = true := by
  have hlen : (Poker.ranksOf cards).length = 5 := by
    rw [poker_ranksOf_length]; exact h5
  simp only [Poker.evaluateHand]
  by_cases h1 : Poker.isFlush cards ∧ Poker.ranksOf cards = [14, 13, 12, 11, 10]
  · rw [if_pos h1]; rfl
  rw [if_neg h1]
  by_cases h2 : Poker.isFlush cards ∧ Poker.isStraight cards
  · rw [if_pos h2]; rfl
  rw [if_neg h2]
  by_cases h3 : 4 ∈ Poker.vals cards
  · rw [if_pos h3]
    have h3' : ∃ q ∈ Poker.items cards, q.2 = 4 := by
      unfold Poker.vals at h3
      rcases List.mem_map.1 h3 with ⟨q, hq, hq2⟩
      exact ⟨q, hq, hq2⟩
    split
    next hfind =>
      exfalso
      rcases h3' with ⟨q, hq, hq2⟩
      have := List.find?_eq_none.1 hfind q hq
      simp [hq2] at this
    next fr hfind =>
      have hp := List.find?_some hfind
      have hfr2 : fr.2 = 4 := by simpa using hp
      have hfr := poker_items_mem (List.mem_of_find?_eq_some hfind)
      have hcount : (Poker.ranksOf cards).count fr.1 = 4 := by
        rw [← hfr.2, hfr2]
      have hex : ∃ x ∈ Poker.ranksOf cards, x ≠ fr.1 := by
        by_contra hall
        push_neg at hall
        have : (Poker.ranksOf cards).count fr.1 = 5 := by
          rw [← hlen]
          exact List.count_eq_length.2 (fun b hb => (hall b hb).symm)
        omega
      rcases hex with ⟨x, hx, hxne⟩
      have hxf : x ∈ (Poker.ranksOf cards).filter (fun r => r ≠ fr.1) :=
        List.mem_filter.2 ⟨hx, by simp [hxne]⟩
      split
      next hmax =>
        exfalso
        rw [List.max?_eq_none_iff.1 hmax] at hxf
        exact List.not_mem_nil x hxf
      next k hmax => rfl
  rw [if_neg h3]
  by_cases h4 : 3 ∈ Poker.vals cards ∧ 2 ∈ Poker.vals cards
  · rw [if_pos h4]
    have h43 : ∃ q ∈ Poker.items cards, q.2 = 3 := by
      have h := h4.1
      unfold Poker.vals at h
      rcases List.mem_map.1 h with ⟨q, hq, hq2⟩
      exact ⟨q, hq, hq2⟩
    have h42 : ∃ q ∈ Poker.items cards, q.2 = 2 := by
      have h := h4.2
      unfold Poker.vals at h
      rcases List.mem_map.1 h with ⟨q, hq, hq2⟩
      exact ⟨q, hq, hq2⟩
    split
    next tr pr hf3 hf2 => rfl
    next hbad =>
      exfalso
      rcases h43 with ⟨q3, hq3, hq32⟩
      rcases h42 with ⟨q2, hq2, hq22⟩
      cases hf3 : (Poker.items cards).find? (fun p => p.2 = 3) with
      | none =>
        have := List.find?_eq_none.1 hf3 q3 hq3
        simp [hq32] at this
      | some tr =>
        cases hf2 : (Poker.items cards).find? (fun p => p.2 = 2) with
        | none =>
          have := List.find?_eq_none.1 hf2 q2 hq2
          simp [hq22] at this
        | some pr => exact hbad tr pr hf3 hf2
  rw [if_neg h4]
  by_cases h5f : Poker.isFlush cards
  · rw [if_pos h5f]; rfl
  rw [if_neg h5f]
  by_cases h6 : Poker.isStraight cards
  · rw [if_pos h6]; rfl
  rw [if_neg h6]
  by_cases h7 : 3 ∈ Poker.vals cards
  · rw [if_pos h7]
    have h7' : ∃ q ∈ Poker.items cards, q.2 = 3 := by
      unfold Poker.vals at h7
      rcases List.mem_map.1 h7 with ⟨q, hq, hq2⟩
      exact ⟨q, hq, hq2⟩
    split
    next hf3 =>
      exfalso
      rcases h7' with ⟨q, hq, hq2⟩
      have := List.find?_eq_none.1 hf3 q hq
      simp [hq2] at this
    next tr hf3 => rfl
  rw [if_neg h7]
  by_cases h8 : 2 ≤ (Poker.vals cards).count 2
  · rw [if_pos h8]
    have hex : ∃ r ∈ Poker.ranksOf cards, (Poker.ranksOf cards).count r ≠ 2 := by
      by_contra hall
      push_neg at hall
      have hsum := poker_vals_sum cards
      have hall2 : ∀ v ∈ Poker.vals cards, v = 2 := by
        intro v hv
        unfold Poker.vals at hv
        rcases List.mem_map.1 hv with ⟨q, hq, hq2⟩
        have hs := poker_items_mem hq
        rw [← hq2, hs.2]
        exact hall q.1 hs.1
      have : (Poker.vals cards).sum = 2 * (Poker.vals cards).length := by
        rw [List.eq_replicate_of_mem hall2]
        simp [List.sum_replicate, smul_eq_mul]
        ring
      omega
    rcases hex with ⟨r, hr, hrc⟩
    have hnotin : r ∉ (sortDesc (((Poker.items cards).filter
        (fun p => p.2 = 2)).map (fun p => p.1))).take 2 := by
      intro hmem
      have hmem2 := (List.perm_insertionSort geN _).subset ((List.take_sublist 2 _).subset hmem)
      rcases List.mem_map.1 hmem2 with ⟨q, hq, hq1⟩
      have hq2 : q.2 = 2 := by simpa using (List.mem_filter.1 hq).2
      have hs := poker_items_mem (List.mem_of_mem_filter hq)
      rw [← hq1, ← hs.2] at hrc
      exact hrc hq2
    have hrf : r ∈ (Poker.ranksOf cards).filter
        (fun x => x ∉ (sortDesc (((Poker.items cards).filter
          (fun p => p.2 = 2)).map (fun p => p.1))).take 2) :=
      List.mem_filter.2 ⟨hr, by simpa using hnotin⟩
    split
    next hmax =>
      exfalso
      rw [List.max?_eq_none_iff.1 hmax] at hrf
      exact List.not_mem_nil r hrf
    next k hmax => rfl
  rw [if_neg h8]
  by_cases h9 : 2 ∈ Poker.vals cards
  · rw [if_pos h9]
    have h9' : ∃ q ∈ Poker.items cards, q.2 = 2 := by
      unfold Poker.vals at h9
      rcases List.mem_map.1 h9 with ⟨q, hq, hq2⟩
      exact ⟨q, hq, hq2⟩
    split
    next hf2 =>
      exfalso
      rcases h9' with ⟨q, hq, hq2⟩
      have := List.find?_eq_none.1 hf2 q hq
      simp [hq2] at this
    next pr hf2 => rfl
  rw [if_neg h9]
  rfl

/-- pokercombos.py's `evaluate_hand` completes without raising on every
5-card input: whenever a branch reads `rank_counts[i]`, the multiplicity
structure of 5 ranks guarantees the item exists. -/
theorem combos_evaluateHand_isSome {hand : List Card} (h5 : hand.length = 5) :
    (Combos.evaluateHand hand).isSome = true := by
  have hsum5 : ((Combos.items hand).map (fun p => p.2)).sum = 5 := by
    rw [combos_items_sum, h5]
  simp only [Combos.evaluateHand]
  by_cases h1 : Combos.isStraight hand ∧ Combos.isFlush hand
  · rw [if_pos h1]
    by_cases h2 : sortAsc (Combos.ranksOf hand) = [10, 11, 12, 13, 14] ∧ Combos.isFlush hand
    · rw [if_pos h2]; rfl
    · rw [if_neg h2]; rfl
  rw [if_neg h1]
  split
  next hitems =>
    exfalso
    rw [hitems] at hsum5
    simp at hsum5
  next i0 rest0 hitems =>
    by_cases h4 : i0.2 = 4
    · rw [if_pos h4]
      cases rest0 with
      | nil =>
        exfalso
        rw [hitems] at hsum5
        simp at hsum5
        omega
      | cons i1 rest1 => rfl
    rw [if_neg h4]
    by_cases h3 : i0.2 = 3
    · rw [if_pos h3]
      cases rest0 with
      | nil =>
        exfalso
        rw [hitems] at hsum5
        simp at hsum5
        omega
      | cons i1 rest1 =>
        by_cases hfh : i1.2 = 2
        · simp [hfh]
        by_cases hfl : Combos.isFlush hand
        · simp [hfh, hfl]
        by_cases hst : Combos.isStraight hand
        · simp [hfh, hfl, hst]
        cases rest1 with
        | nil =>
          exfalso
          rw [hitems] at hsum5
          simp at hsum5
          omega
        | cons i2 rest2 => simp [hfh, hfl, hst]
    rw [if_neg h3]
    by_cases hfl : Combos.isFlush hand
    · rw [if_pos hfl]; rfl
    rw [if_neg hfl]
    by_cases hst : Combos.isStraight hand
    · rw [if_pos hst]; rfl
    rw [if_neg hst]
    by_cases h2p : i0.2 = 2
    · rw [if_pos h2p]
      cases rest0 with
      | nil =>
        exfalso
        rw [hitems] at hsum5
        simp at hsum5
        omega
      | cons i1 rest1 =>
        have hsorted := combos_items_sorted hand
        rw [hitems] at hsorted
        have hge01 : Combos.itemGe i0 i1 :=
          (List.sorted_cons.1 hsorted).1 i1 (List.mem_cons_self _ _)
        have hle1 : i1.2 ≤ 2 := by
          rcases hge01 with h | ⟨h, _⟩ <;> omega
        by_cases h2q : i1.2 = 2
        · cases rest1 with
          | nil =>
            exfalso
            rw [hitems] at hsum5
            simp at hsum5
            omega
          | cons i2 rest2 => simp [h2q]
        cases rest1 with
        | nil =>
          exfalso
          rw [hitems] at hsum5
          simp at hsum5
          omega
        | cons i2 rest2 =>
          cases rest2 with
          | nil =>
            exfalso
            have hge12 : Combos.itemGe i1 i2 :=
              (List.sorted_cons.1 (List.sorted_cons.1 hsorted).2).1 i2
                (List.mem_cons_self _ _)
            have hle2 : i2.2 ≤ i1.2 := by
              rcases hge12 with h | ⟨h, _⟩ <;> omega
            rw [hitems] at hsum5
            simp at hsum5
            omega
          | cons i3 rest3 => simp [h2q]
    rw [if_neg h2p]
    rfl

/-! ### Combinations -/

theorem combos_length_mem : ∀ (k : Nat) (l c : List α), c ∈ combos k l → c.length = k
  | 0, l, c, h => by
    simp [combos] at h
    rw [h]
    rfl
  | k + 1, [], c, h => by simp [combos] at h
  | k + 1, x :: xs, c, h => by
    simp only [combos, List.mem_append, List.mem_map] at h
    rcases h with ⟨c', hc', hcc⟩ | h
    · cases hcc
      simp [combos_length_mem k xs c' hc']
    · exact combos_length_mem (k + 1) xs c h

theorem combos_length : ∀ (k : Nat) (l : List α),
    (combos k l).length = Nat.choose l.length k
  | 0, l => by simp [combos]
  | k + 1, [] => by simp [combos]
  | k + 1, x :: xs => by
    simp [combos, List.length_append, List.length_map, combos_length k xs,
      combos_length (k + 1) xs, Nat.choose_succ_succ, Nat.add_comm]


/-- The label and numeric rank of every `evaluate_hand` result in poker.py:
rank between 1 and 10 and one of the ten category labels. -/
theorem poker_evaluateHand_shape (cards : List Card) :
    (Poker.evaluateHand cards).all
      (fun x => decide (1 ≤ x.2.1 ∧ x.2.1 ≤ 10 ∧
        x.1 ∈ ["RF", "SF", "4k", "FH", "FL", "ST", "3K", "2P", "PR", "HC"])) = true := by
  simp only [Poker.evaluateHand]
  by_cases h1 : Poker.isFlush cards ∧ Poker.ranksOf cards = [14, 13, 12, 11, 10]
  · rw [if_pos h1]; rfl
  rw [if_neg h1]
  by_cases h2 : Poker.isFlush cards ∧ Poker.isStraight cards
  · rw [if_pos h2]; rfl
  rw [if_neg h2]
  by_cases h3 : 4 ∈ Poker.vals cards
  · rw [if_pos h3]
    split
    · rfl
    split <;> rfl
  rw [if_neg h3]
  by_cases h4 : 3 ∈ Poker.vals cards ∧ 2 ∈ Poker.vals cards
  · rw [if_pos h4]
    split <;> rfl
  rw [if_neg h4]
  by_cases h5f : Poker.isFlush cards
  · rw [if_pos h5f]; rfl
  rw [if_neg h5f]
  by_cases h6 : Poker.isStraight cards
  · rw [if_pos h6]; rfl
  rw [if_neg h6]
  by_cases h7 : 3 ∈ Poker.vals cards
  · rw [if_pos h7]
    split <;> rfl
  rw [if_neg h7]
  by_cases h8 : 2 ≤ (Poker.vals cards).count 2
  · rw [if_pos h8]
    split <;> rfl
  rw [if_neg h8]
  by_cases h9 : 2 ∈ Poker.vals cards
  · rw [if_pos h9]
    split <;> rfl
  rw [if_neg h9]
  rfl

theorem poker_evaluateHand_shape_of_eq {cards : List Card} {t : String} {r : Nat}
    {bc : List Card} (h : Poker.evaluateHand cards = some (t, r, bc)) :
    1 ≤ r ∧ r ≤ 10 ∧
      t ∈ ["RF", "SF", "4k", "FH", "FL", "ST", "3K", "2P", "PR", "HC"] := by
  have hs := poker_evaluateHand_shape cards
  rw [h] at hs
  exact of_decide_eq_true hs

/-- The `texas_holdem_score` loop invariant: starting from any accumulator,
folding over combos whose members all have 5 cards never raises, and the
final accumulator is either the start value or the evaluation of one of the
combos (paired with the descending ranks of its best cards). -/
theorem texas_fold_some :
    ∀ (l : List (List Card)) (acc : Poker.Score),
      (∀ c ∈ l, c.length = 5) →
      ∃ v : Poker.Score, l.foldl Poker.texasStep (some acc) = some v ∧
        (v = acc ∨ ∃ c ∈ l, ∃ t r bc, Poker.evaluateHand c = some (t, r, bc) ∧
          v = (some t, r, bc, sortDesc (bc.map Card.rank))) := by
  intro l
  induction l with
  | nil => exact fun acc _ => ⟨acc, rfl, Or.inl rfl⟩
  | cons c cs ih =>
    intro acc hl
    have hc5 : c.length = 5 := hl c (List.mem_cons_self _ _)
    obtain ⟨x, hx⟩ := Option.isSome_iff_exists.1 (poker_evaluateHand_isSome hc5)
    obtain ⟨t, r, bc⟩ := x
    have hstep : Poker.texasStep (some acc) c =
        if acc.2.1 < r ∨ (acc.2.1 = r ∧ pyLt acc.2.2.2 (sortDesc (bc.map Card.rank)))
        then some (some t, r, bc, sortDesc (bc.map Card.rank)) else some acc := by
      simp only [Poker.texasStep, hx]
    rw [List.foldl_cons, hstep]
    by_cases hcond : acc.2.1 < r ∨ (acc.2.1 = r ∧ pyLt acc.2.2.2 (sortDesc (bc.map Card.rank)))
    · rw [if_pos hcond]
      obtain ⟨v, hv, hvor⟩ := ih (some t, r, bc, sortDesc (bc.map Card.rank))
        (fun c2 hc2 => hl c2 (List.mem_cons_of_mem _ hc2))
      refine ⟨v, hv, ?_⟩
      rcases hvor with hv1 | ⟨c', hc', hrest⟩
      · exact Or.inr ⟨c, List.mem_cons_self _ _, t, r, bc, hx, hv1⟩
      · exact Or.inr ⟨c', List.mem_cons_of_mem _ hc', hrest⟩
    · rw [if_neg hcond]
      obtain ⟨v, hv, hvor⟩ := ih acc (fun c2 hc2 => hl c2 (List.mem_cons_of_mem _ hc2))
      refine ⟨v, hv, ?_⟩
      rcases hvor with hv1 | ⟨c', hc', hrest⟩
      · exact Or.inl hv1
      · exact Or.inr ⟨c', List.mem_cons_of_mem _ hc', hrest⟩

/-- C7: `texas_holdem_score` returns normally exactly when the input has 7
cards; on any 7-card input (distinct or not) it raises no error, and on any
other length it raises the card-count `ValueError`. -/
theorem c7_texas_score_succeeds_iff_seven (cards : List Card) :
    (Poker.texasHoldemScore cards).isSome = true ↔ cards.length = 7 := by
  constructor
  · intro h
    by_contra hne
    unfold Poker.texasHoldemScore at h
    rw [if_neg hne] at h
    simp at h
  · intro h7
    unfold Poker.texasHoldemScore
    rw [if_pos h7]
    obtain ⟨v, hv, _⟩ := texas_fold_some (combos 5 cards) (none, 0, [], [])
      (fun c hc => combos_length_mem 5 cards c hc)
    rw [hv]
    rfl

/-- Witness for C7 at a concrete 7-card input and a concrete 6-card input. -/
theorem c7_texas_score_succeeds_iff_seven_witness :
    (Poker.texasHoldemScore
      [⟨2, .c⟩, ⟨3, .h⟩, ⟨4, .s⟩, ⟨5, .d⟩, ⟨7, .c⟩, ⟨9, .h⟩, ⟨11, .s⟩]).isSome = true ∧
    Poker.texasHoldemScore
      [⟨2, .c⟩, ⟨3, .h⟩, ⟨4, .s⟩, ⟨5, .d⟩, ⟨7, .c⟩, ⟨9, .h⟩] = none := by
  constructor
  · exact (c7_texas_score_succeeds_iff_seven _).2 rfl
  · have h := (c7_texas_score_succeeds_iff_seven
      [⟨2, .c⟩, ⟨3, .h⟩, ⟨4, .s⟩, ⟨5, .d⟩, ⟨7, .c⟩, ⟨9, .h⟩]).1
    cases hr : Poker.texasHoldemScore
      [⟨2, .c⟩, ⟨3, .h⟩, ⟨4, .s⟩, ⟨5, .d⟩, ⟨7, .c⟩, ⟨9, .h⟩] with
    | none => rfl
    | some v =>
      exfalso
      have := h (by rw [hr]; rfl)
      simp at this

/-- C10: on every 7-card duplicate-free input, `texas_holdem_score` never
returns its `(None, 0, [], [])` sentinel: the result carries one of the ten
labels, a rank in 1..10, and the best cards of an actually classified 5-card
subset of the input. -/
theorem c10_texas_score_never_sentinel (cards : List Card)
    (h7 : cards.length = 7) (hnd : cards.Nodup) :
    ∃ t r bc, Poker.texasHoldemScore cards = some (some t, r, bc) ∧
      1 ≤ r ∧ r ≤ 10 ∧
      t ∈ ["RF", "SF", "4k", "FH", "FL", "ST", "3K", "2P", "PR", "HC"] ∧
      ∃ combo ∈ combos 5 cards, Poker.evaluateHand combo = some (t, r, bc) := by
  have hne : combos 5 cards ≠ [] := by
    have hlen := combos_length 5 cards
    rw [h7] at hlen
    intro hnil
    rw [hnil] at hlen
    exact absurd hlen (by decide)
  obtain ⟨c0, rest, hc⟩ : ∃ c0 rest, combos 5 cards = c0 :: rest := by
    cases hcc : combos 5 cards with
    | nil => exact absurd hcc hne
    | cons a b => exact ⟨a, b, rfl⟩
  have hc05 : c0.length = 5 :=
    combos_length_mem 5 cards c0 (by rw [hc]; exact List.mem_cons_self _ _)
  obtain ⟨x, hx⟩ := Option.isSome_iff_exists.1 (poker_evaluateHand_isSome hc05)
  obtain ⟨t0, r0, bc0⟩ := x
  have hshape0 := poker_evaluateHand_shape_of_eq hx
  have hstep : Poker.texasStep (some (none, 0, [], [])) c0 =
      some (some t0, r0, bc0, sortDesc (bc0.map Card.rank)) := by
    simp only [Poker.texasStep, hx]
    rw [if_pos]
    exact Or.inl (by omega)
  unfold Poker.texasHoldemScore
  rw [if_pos h7, hc, List.foldl_cons, hstep]
  obtain ⟨v, hv, hvor⟩ := texas_fold_some rest (some t0, r0, bc0, sortDesc (bc0.map Card.rank))
    (fun c hcm => combos_length_mem 5 cards c (by rw [hc]; exact List.mem_cons_of_mem _ hcm))
  rw [hv]
  rcases hvor with hv1 | ⟨c', hc', t', r', bc', hx', hv'⟩
  · refine ⟨t0, r0, bc0, ?_, hshape0.1, hshape0.2.1, hshape0.2.2,
      c0, List.mem_cons_self _ _, hx⟩
    rw [hv1]
    rfl
  · have hshape' := poker_evaluateHand_shape_of_eq hx'
    refine ⟨t', r', bc', ?_, hshape'.1, hshape'.2.1, hshape'.2.2,
      c', List.mem_cons_of_mem _ hc', hx'⟩
    rw [hv']
    rfl

/-- Witness for C10 at the quad-aces seven-card input. -/
theorem c10_texas_score_never_sentinel_witness :
    (([⟨14, .c⟩, ⟨14, .h⟩, ⟨14, .s⟩, ⟨14, .d⟩, ⟨13, .c⟩, ⟨13, .h⟩, ⟨2, .d⟩] :
        List Card).length = 7) ∧
    (([⟨14, .c⟩, ⟨14, .h⟩, ⟨14, .s⟩, ⟨14, .d⟩, ⟨13, .c⟩, ⟨13, .h⟩, ⟨2, .d⟩] :
        List Card).Nodup) ∧
    ∃ t r bc, Poker.texasHoldemScore
        [⟨14, .c⟩, ⟨14, .h⟩, ⟨14, .s⟩, ⟨14, .d⟩, ⟨13, .c⟩, ⟨13, .h⟩, ⟨2, .d⟩] =
        some (some t, r, bc) ∧
      1 ≤ r ∧ r ≤ 10 ∧
      t ∈ ["RF", "SF", "4k", "FH", "FL", "ST", "3K", "2P", "PR", "HC"] ∧
      ∃ combo ∈ combos 5
          [⟨14, .c⟩, ⟨14, .h⟩, ⟨14, .s⟩, ⟨14, .d⟩, ⟨13, .c⟩, ⟨13, .h⟩, ⟨2, .d⟩],
        Poker.evaluateHand combo = some (t, r, bc) := by
  refine ⟨rfl, by decide, ?_⟩
  exact c10_texas_score_never_sentinel _ rfl (by decide)

/-- C3 (amended): classification performs no hand-size validation — a 4-card
input is silently classified rather than rejected — and on every input of
exactly 5 cards neither implementation raises an error. -/
theorem c3_classify_no_size_validation :
    (Poker.evaluateHand [⟨2, .c⟩, ⟨3, .c⟩, ⟨4, .c⟩, ⟨5, .c⟩]).isSome = true ∧
    ∀ cards : List Card, cards.length = 5 →
      (Poker.evaluateHand cards).isSome = true ∧
      (Combos.evaluateHand cards).isSome = true :=
  ⟨by decide, fun _ h5 => ⟨poker_evaluateHand_isSome h5, combos_evaluateHand_isSome h5⟩⟩

/-- Witness for C3 at a concrete 5-card hand. -/
theorem c3_classify_no_size_validation_witness :
    (([⟨2, .c⟩, ⟨3, .h⟩, ⟨4, .s⟩, ⟨5, .d⟩, ⟨7, .c⟩] : List Card).length = 5) ∧
    (Poker.evaluateHand [⟨2, .c⟩, ⟨3, .h⟩, ⟨4, .s⟩, ⟨5, .d⟩, ⟨7, .c⟩]).isSome = true ∧
    (Combos.evaluateHand [⟨2, .c⟩, ⟨3, .h⟩, ⟨4, .s⟩, ⟨5, .d⟩, ⟨7, .c⟩]).isSome = true := by
  refine ⟨rfl, ?_, ?_⟩
  · exact (c3_classify_no_size_validation.2
      [⟨2, .c⟩, ⟨3, .h⟩, ⟨4, .s⟩, ⟨5, .d⟩, ⟨7, .c⟩] rfl).1
  · exact (c3_classify_no_size_validation.2
      [⟨2, .c⟩, ⟨3, .h⟩, ⟨4, .s⟩, ⟨5, .d⟩, ⟨7, .c⟩] rfl).2

/-- C5: the combined (category, tiebreak) ordering produced by
`pokercombos.evaluate_hand` is a total order on evaluated 5-card hands:
exactly one of less / equal / greater holds, it is asymmetric and
transitive, and hands with identical evaluations compare equal no matter
which cards produced them. -/
theorem c5_evaluation_order_total (a b c : List Card) (e1 e2 e3 : EvalT)
    (hv1 : Combos.evaluateHand a = some e1)
    (hv2 : Combos.evaluateHand b = some e2)
    (hv3 : Combos.evaluateHand c = some e3) :
    ((evalLt e1 e2 = true ∧ e1 ≠ e2 ∧ evalLt e2 e1 = false) ∨
     (evalLt e1 e2 = false ∧ e1 = e2 ∧ evalLt e2 e1 = false) ∨
     (evalLt e1 e2 = false ∧ e1 ≠ e2 ∧ evalLt e2 e1 = true)) ∧
    (evalLt e1 e2 = true → evalLt e2 e1 = false) ∧
    (evalLt e1 e2 = true → evalLt e2 e3 = true → evalLt e1 e3 = true) ∧
    (e1 = e2 → evalLt e1 e2 = false ∧ evalLt e2 e1 = false) := by
  refine ⟨?_, fun h => evalLt_asymm h, fun hab hbc => evalLt_trans hab hbc, ?_⟩
  · rcases evalLt_trichot e1 e2 with h | h | h
    · refine Or.inl ⟨h, ?_, evalLt_asymm h⟩
      intro heq
      rw [heq, evalLt_irrefl] at h
      exact Bool.noConfusion h
    · exact Or.inr (Or.inl ⟨by rw [h, evalLt_irrefl], h, by rw [h, evalLt_irrefl]⟩)
    · refine Or.inr (Or.inr ⟨evalLt_asymm h, ?_, h⟩)
      intro heq
      rw [heq, evalLt_irrefl] at h
      exact Bool.noConfusion h
  · intro heq
    rw [heq]
    exact ⟨evalLt_irrefl e2, evalLt_irrefl e2⟩

/-- Witness for C5: the trichotomy instantiated at the wheel straight and a
6-high straight. -/
theorem c5_evaluation_order_total_witness :
    (evalLt (5, [-5]) (5, [-6]) = true ∧ ((5, [-5]) : EvalT) ≠ (5, [-6]) ∧
      evalLt (5, [-6]) (5, [-5]) = false) ∨
    (evalLt (5, [-5]) (5, [-6]) = false ∧ ((5, [-5]) : EvalT) = (5, [-6]) ∧
      evalLt (5, [-6]) (5, [-5]) = false) ∨
    (evalLt (5, [-5]) (5, [-6]) = false ∧ ((5, [-5]) : EvalT) ≠ (5, [-6]) ∧
      evalLt (5, [-6]) (5, [-5]) = true) :=
  (c5_evaluation_order_total
    [⟨14, .c⟩, ⟨2, .d⟩, ⟨3, .h⟩, ⟨4, .s⟩, ⟨5, .c⟩]
    [⟨6, .c⟩, ⟨5, .d⟩, ⟨4, .h⟩, ⟨3, .s⟩, ⟨2, .c⟩]
    [⟨6, .c⟩, ⟨5, .d⟩, ⟨4, .h⟩, ⟨3, .s⟩, ⟨2, .c⟩]
    (5, [-5]) (5, [-6]) (5, [-6])
    (by decide) (by decide) (by decide)).1

/-! ### Lemmas on the ranking loop -/

instance : IsTotal (List Card × EvalT) Combos.evalPairLe :=
  ⟨fun a b => by
    unfold Combos.evalPairLe
    rcases evalLt_trichot a.2 b.2 with h | h | h
    · exact Or.inl (evalLt_asymm h)
    · exact Or.inl (by rw [h, evalLt_irrefl])
    · exact Or.inr (evalLt_asymm h)⟩

instance : IsTrans (List Card × EvalT) Combos.evalPairLe :=
  ⟨fun a b c hab hbc => by
    unfold Combos.evalPairLe at *
    cases hh : evalLt c.2 a.2 with
    | false => rfl
    | true =>
      exfalso
      rcases evalLt_trichot a.2 b.2 with h1 | h1 | h1
      · exact Bool.noConfusion (hbc.symm.trans (evalLt_trans hh h1))
      · rw [← h1] at hbc
        exact Bool.noConfusion (hbc.symm.trans hh)
      · exact Bool.noConfusion (hab.symm.trans h1)⟩

theorem rankPass_length :
    ∀ (l : List (List Card × EvalT)) (i : Nat) (p : Option (EvalT × Nat)),
      (Combos.rankPass l i p).length = l.length
  | [], _, none => rfl
  | [], _, some (_, _) => rfl
  | (h, e) :: rest, i, none => by
    simp [Combos.rankPass, rankPass_length rest]
  | (h, e) :: rest, i, some (pe, pr) => by
    simp [Combos.rankPass, rankPass_length rest]

theorem rankPass_get_fst :
    ∀ (l : List (List Card × EvalT)) (i : Nat) (p : Option (EvalT × Nat)) (j : Nat)
      (hj : j < (Combos.rankPass l i p).length) (hj2 : j < l.length),
      ((Combos.rankPass l i p).get ⟨j, hj⟩).1 = l.get ⟨j, hj2⟩
  | [], _, _, j, _, hj2 => absurd hj2 (by simp)
  | (h, e) :: rest, i, none, 0, _, _ => rfl
  | (h, e) :: rest, i, some (pe, pr), 0, _, _ => rfl
  | (h, e) :: rest, i, none, j + 1, hj, hj2 =>
    rankPass_get_fst rest (i + 1) (some (e, i + 1)) j
      (Nat.lt_of_succ_lt_succ (by simpa [Combos.rankPass, rankPass_length] using hj))
      (Nat.lt_of_succ_lt_succ hj2)
  | (h, e) :: rest, i, some (pe, pr), j + 1, hj, hj2 =>
    rankPass_get_fst rest (i + 1) _ j
      (Nat.lt_of_succ_lt_succ (by simpa [Combos.rankPass, rankPass_length] using hj))
      (Nat.lt_of_succ_lt_succ hj2)

theorem rankPass_rank_zero :
    ∀ (l : List (List Card × EvalT)) (i : Nat)
      (hj : 0 < (Combos.rankPass l i none).length),
      ((Combos.rankPass l i none).get ⟨0, hj⟩).2 = i + 1
  | [], _, hj => absurd hj (by simp [Combos.rankPass])
  | (h, e) :: rest, i, _ => rfl

theorem rankPass_rank_succ :
    ∀ (l : List (List Card × EvalT)) (i : Nat) (p : Option (EvalT × Nat)) (j : Nat)
      (hj1 : j + 1 < (Combos.rankPass l i p).length)
      (hj0 : j < (Combos.rankPass l i p).length),
      ((Combos.rankPass l i p).get ⟨j + 1, hj1⟩).2 =
        if ((Combos.rankPass l i p).get ⟨j + 1, hj1⟩).1.2 =
            ((Combos.rankPass l i p).get ⟨j, hj0⟩).1.2
        then ((Combos.rankPass l i p).get ⟨j, hj0⟩).2
        else i + j + 2
  | [], i, p, j, hj1, hj0 => by
    rw [rankPass_length] at hj1
    exact absurd hj1 (by simp)
  | [x], i, p, j, hj1, hj0 => by
    rw [rankPass_length] at hj1
    simp at hj1
  | (h1, e1) :: (h2, e2) :: rest, i, none, 0, hj1, hj0 => rfl
  | (h1, e1) :: (h2, e2) :: rest, i, some (pe, pr), 0, hj1, hj0 => rfl
  | (h1, e1) :: (h2, e2) :: rest, i, none, j + 1, hj1, hj0 => by
    have hj1b : j + 1 <
        (Combos.rankPass ((h2, e2) :: rest) (i + 1) (some (e1, i + 1))).length := by
      rw [rankPass_length] at hj1 ⊢
      simpa using Nat.lt_of_succ_lt_succ hj1
    have hj0b : j <
        (Combos.rankPass ((h2, e2) :: rest) (i + 1) (some (e1, i + 1))).length := by
      rw [rankPass_length] at hj0 ⊢
      simpa using Nat.lt_of_succ_lt_succ hj0
    have H := rankPass_rank_succ ((h2, e2) :: rest) (i + 1) (some (e1, i + 1)) j hj1b hj0b
    rw [show i + (j + 1) + 2 = (i + 1) + j + 2 by omega]
    exact H
  | (h1, e1) :: (h2, e2) :: rest, i, some (pe, pr), j + 1, hj1, hj0 => by
    have hj1b : j + 1 < (Combos.rankPass ((h2, e2) :: rest) (i + 1)
        (some (e1, if e1 = pe then pr else i + 1))).length := by
      rw [rankPass_length] at hj1 ⊢
      simpa using Nat.lt_of_succ_lt_succ hj1
    have hj0b : j < (Combos.rankPass ((h2, e2) :: rest) (i + 1)
        (some (e1, if e1 = pe then pr else i + 1))).length := by
      rw [rankPass_length] at hj0 ⊢
      simpa using Nat.lt_of_succ_lt_succ hj0
    have H := rankPass_rank_succ ((h2, e2) :: rest) (i + 1)
      (some (e1, if e1 = pe then pr else i + 1)) j hj1b hj0b
    rw [show i + (j + 1) + 2 = (i + 1) + j + 2 by omega]
    exact H

theorem rankPass_map_fst :
    ∀ (l : List (List Card × EvalT)) (i : Nat) (p : Option (EvalT × Nat)),
      (Combos.rankPass l i p).map (fun x => x.1) = l
  | [], _, none => rfl
  | [], _, some (_, _) => rfl
  | (h, e) :: rest, i, none => by
    simp [Combos.rankPass, rankPass_map_fst rest]
  | (h, e) :: rest, i, some (pe, pr) => by
    simp [Combos.rankPass, rankPass_map_fst rest]

theorem handEvaluations_sound :
    ∀ (hands : List (List Card)) (pairs : List (List Card × EvalT)),
      Combos.handEvaluations hands = some pairs →
      pairs.map (fun x => x.1) = hands ∧
        ∀ p ∈ pairs, Combos.evaluateHand p.1 = some p.2
  | [], pairs, h => by
    simp only [Combos.handEvaluations, Option.some.injEq] at h
    subst h
    exact ⟨rfl, by simp⟩
  | hd :: tl, pairs, h => by
    simp only [Combos.handEvaluations] at h
    cases he : Combos.evaluateHand hd with
    | none =>
      simp only [he] at h
      exact Option.noConfusion h
    | some e =>
      cases hr : Combos.handEvaluations tl with
      | none =>
        simp only [he, hr] at h
        exact Option.noConfusion h
      | some rest =>
        simp only [he, hr, Option.some.injEq] at h
        obtain ⟨h1, h2⟩ := handEvaluations_sound tl rest hr
        subst h
        constructor
        · simp [h1]
        · intro p hp
          rcases List.mem_cons.1 hp with hp | hp
          · subst hp
            exact he
          · exact h2 p hp

theorem handEvaluations_isSome :
    ∀ (hands : List (List Card)), (∀ h ∈ hands, h.length = 5) →
      ∃ pairs, Combos.handEvaluations hands = some pairs
  | [], _ => ⟨[], rfl⟩
  | hd :: tl, hl => by
    obtain ⟨e, he⟩ := Option.isSome_iff_exists.1
      (combos_evaluateHand_isSome (hl hd (List.mem_cons_self _ _)))
    obtain ⟨rest, hr⟩ := handEvaluations_isSome tl
      (fun x hx => hl x (List.mem_cons_of_mem _ hx))
    exact ⟨(hd, e) :: rest, by simp [Combos.handEvaluations, he, hr]⟩

/-- C4: on 5-card hands, the module-level ranking loop sorts the hands best
first (ascending evaluation tuples, lower = better) and assigns dense
competition ranks: the first hand gets rank 1, a hand whose evaluation
equals its predecessor inherits the predecessor's rank, and a strictly
worse hand gets its 1-based position in the sorted sequence. -/
theorem c4_rank_all_dense_ranking (hands : List (List Card))
    (hlen : ∀ h ∈ hands, h.length = 5) :
    ∃ out, Combos.rankAll hands = some out ∧
      (out.map (fun x => x.1.1)).Perm hands ∧
      (∀ (j : Nat) (hj : j < out.length),
        Combos.evaluateHand ((out.get ⟨j, hj⟩).1.1) = some ((out.get ⟨j, hj⟩).1.2)) ∧
      (∀ (j : Nat) (hj1 : j + 1 < out.length) (hj0 : j < out.length),
        evalLt ((out.get ⟨j + 1, hj1⟩).1.2) ((out.get ⟨j, hj0⟩).1.2) = false) ∧
      (∀ h0 : 0 < out.length, (out.get ⟨0, h0⟩).2 = 1) ∧
      (∀ (j : Nat) (hj1 : j + 1 < out.length) (hj0 : j < out.length),
        (out.get ⟨j + 1, hj1⟩).2 =
          if (out.get ⟨j + 1, hj1⟩).1.2 = (out.get ⟨j, hj0⟩).1.2
          then (out.get ⟨j, hj0⟩).2 else j + 2) := by
  obtain ⟨pairs, hp⟩ := handEvaluations_isSome hands hlen
  obtain ⟨hmap, hprop⟩ := handEvaluations_sound hands pairs hp
  have hsp_perm : (List.insertionSort Combos.evalPairLe pairs).Perm pairs :=
    List.perm_insertionSort _ _
  have hsp_sorted : List.Sorted Combos.evalPairLe
      (List.insertionSort Combos.evalPairLe pairs) := List.sorted_insertionSort _ _
  refine ⟨Combos.rankPass (List.insertionSort Combos.evalPairLe pairs) 0 none,
    ?_, ?_, ?_, ?_, ?_, ?_⟩
  · unfold Combos.rankAll
    rw [hp]
    rfl
  · have h1 : (Combos.rankPass (List.insertionSort Combos.evalPairLe pairs) 0 none).map
        (fun x => x.1.1) =
        ((List.insertionSort Combos.evalPairLe pairs).map (fun x => x.1)) := by
      rw [show (fun x : (List Card × EvalT) × Nat => x.1.1) =
          ((fun x : List Card × EvalT => x.1) ∘ (fun x : (List Card × EvalT) × Nat => x.1))
          from rfl,
        ← List.map_map, rankPass_map_fst]
    rw [h1, ← hmap]
    exact hsp_perm.map _
  · intro j hj
    have hj2 : j < (List.insertionSort Combos.evalPairLe pairs).length := by
      rw [rankPass_length] at hj
      exact hj
    rw [rankPass_get_fst _ 0 none j hj hj2]
    exact hprop _ (hsp_perm.subset (List.get_mem _ _ _))
  · intro j hj1 hj0
    have hj1s : j + 1 < (List.insertionSort Combos.evalPairLe pairs).length := by
      rw [rankPass_length] at hj1
      exact hj1
    have hj0s : j < (List.insertionSort Combos.evalPairLe pairs).length := by
      rw [rankPass_length] at hj0
      exact hj0
    rw [rankPass_get_fst _ 0 none _ hj1 hj1s, rankPass_get_fst _ 0 none _ hj0 hj0s]
    exact List.pairwise_iff_get.1 hsp_sorted ⟨j, hj0s⟩ ⟨j + 1, hj1s⟩
      (by simp [Fin.lt_def])
  · intro h0
    exact rankPass_rank_zero _ 0 h0
  · intro j hj1 hj0
    rw [rankPass_rank_succ _ 0 none j hj1 hj0]
    simp

/-- Witness for C4 on three concrete hands: two flushes with identical ranks
in different suits (a tie) and one high-card hand. -/
theorem c4_rank_all_dense_ranking_witness :
    (∀ h ∈ ([[⟨2, .s⟩, ⟨4, .s⟩, ⟨6, .s⟩, ⟨8, .s⟩, ⟨10, .s⟩],
             [⟨2, .h⟩, ⟨4, .h⟩, ⟨6, .h⟩, ⟨8, .h⟩, ⟨10, .h⟩],
             [⟨2, .c⟩, ⟨4, .d⟩, ⟨6, .h⟩, ⟨8, .s⟩, ⟨11, .c⟩]] : List (List Card)),
      h.length = 5) ∧
    ∃ out, Combos.rankAll
        [[⟨2, .s⟩, ⟨4, .s⟩, ⟨6, .s⟩, ⟨8, .s⟩, ⟨10, .s⟩],
         [⟨2, .h⟩, ⟨4, .h⟩, ⟨6, .h⟩, ⟨8, .h⟩, ⟨10, .h⟩],
         [⟨2, .c⟩, ⟨4, .d⟩, ⟨6, .h⟩, ⟨8, .s⟩, ⟨11, .c⟩]] = some out ∧
      (out.map (fun x => x.1.1)).Perm
        [[⟨2, .s⟩, ⟨4, .s⟩, ⟨6, .s⟩, ⟨8, .s⟩, ⟨10, .s⟩],
         [⟨2, .h⟩, ⟨4, .h⟩, ⟨6, .h⟩, ⟨8, .h⟩, ⟨10, .h⟩],
         [⟨2, .c⟩, ⟨4, .d⟩, ⟨6, .h⟩, ⟨8, .s⟩, ⟨11, .c⟩]] ∧
      (∀ (j : Nat) (hj : j < out.length),
        Combos.evaluateHand ((out.get ⟨j, hj⟩).1.1) = some ((out.get ⟨j, hj⟩).1.2)) ∧
      (∀ (j : Nat) (hj1 : j + 1 < out.length) (hj0 : j < out.length),
        evalLt ((out.get ⟨j + 1, hj1⟩).1.2) ((out.get ⟨j, hj0⟩).1.2) = false) ∧
      (∀ h0 : 0 < out.length, (out.get ⟨0, h0⟩).2 = 1) ∧
      (∀ (j : Nat) (hj1 : j + 1 < out.length) (hj0 : j < out.length),
        (out.get ⟨j + 1, hj1⟩).2 =
          if (out.get ⟨j + 1, hj1⟩).1.2 = (out.get ⟨j, hj0⟩).1.2
          then (out.get ⟨j, hj0⟩).2 else j + 2) :=
  ⟨by decide, c4_rank_all_dense_ranking _ (by decide)⟩

/-! ### Correspondence between the two classifiers (infrastructure for C9) -/

theorem flush_iff (cards : List Card) : Poker.isFlush cards ↔ Combos.isFlush cards :=
  Iff.rfl

/-- A descending sort equals `D` exactly when an ascending sort equals `A`,
for lists `A` and `D` that are each other's sorts. -/
theorem sort_desc_asc_iff (m D A : List Nat) (h1 : sortAsc D = A) (h2 : sortDesc A = D) :
    sortDesc m = D ↔ sortAsc m = A := by
  constructor
  · intro h
    have hm : m.Perm D := by
      rw [← h]
      exact (List.perm_insertionSort geN m).symm
    rw [sortAsc_eq_of_perm hm, h1]
  · intro h
    have hm : m.Perm A := by
      rw [← h]
      exact (List.perm_insertionSort (fun a b : Nat => a ≤ b) m).symm
    rw [sortDesc_eq_of_perm hm, h2]

theorem wheel_sort_iff (m : List Nat) :
    sortDesc m = [14, 5, 4, 3, 2] ↔ sortAsc m = [2, 3, 4, 5, 14] :=
  sort_desc_asc_iff m _ _ (by decide) (by decide)

theorem broadway_sort_iff (m : List Nat) :
    sortDesc m = [14, 13, 12, 11, 10] ↔ sortAsc m = [10, 11, 12, 13, 14] :=
  sort_desc_asc_iff m _ _ (by decide) (by decide)

/-- The two `is_straight` predicates agree. -/
theorem straight_iff (cards : List Card) :
    Poker.isStraight cards ↔ Combos.isStraight cards := by
  unfold Poker.isStraight Combos.isStraight Poker.ranksOf Combos.ranksOf
  have hperm : (sortDesc (cards.map Card.rank)).Perm (cards.map Card.rank) :=
    List.perm_insertionSort geN _
  rw [hperm.dedup.length_eq, maxR_eq_of_perm hperm, minR_eq_of_perm hperm]
  exact and_congr_right fun _ =>
    or_congr Iff.rfl (wheel_sort_iff (cards.map Card.rank))

/-- poker.py's Counter items are a permutation of pokercombos' sorted items. -/
theorem poker_items_perm_combos (cards : List Card) :
    (Poker.items cards).Perm (Combos.items cards) := by
  unfold Poker.items Poker.ranksOf
  have hperm : (sortDesc (cards.map Card.rank)).Perm (cards.map Card.rank) :=
    List.perm_insertionSort geN _
  have hcongr : (sortDesc (cards.map Card.rank)).dedup.map
      (fun r => (r, (sortDesc (cards.map Card.rank)).count r)) =
      (sortDesc (cards.map Card.rank)).dedup.map
      (fun r => (r, (cards.map Card.rank).count r)) :=
    List.map_congr_left (fun r _ => by rw [hperm.count_eq])
  rw [hcongr]
  exact (hperm.dedup.map _).trans (combos_items_perm cards).symm

theorem poker_vals_perm (cards : List Card) :
    (Poker.vals cards).Perm ((Combos.items cards).map (fun p => p.2)) := by
  unfold Poker.vals
  exact (poker_items_perm_combos cards).map _

theorem count_map_eq_length_filter {α β : Type} [DecidableEq β] (f : α → β)
    (l : List α) (b : β) :
    (l.map f).count b = (l.filter (fun a => f a == b)).length := by
  induction l with
  | nil => rfl
  | cons x xs ih =>
    simp only [List.map_cons, List.count_cons, List.filter_cons]
    by_cases hx : f x = b
    · simp [hx, ih]
    · simp [hx, ih]

/-- With duplicate-free cards no rank occurs more than four times (one card
per suit). -/
theorem rank_count_le_four {cards : List Card} (hnd : cards.Nodup) (r : Nat) :
    (cards.map Card.rank).count r ≤ 4 := by
  rw [count_map_eq_length_filter]
  have hfn : (cards.filter (fun c => c.rank == r)).Nodup := hnd.filter _
  have hmap : ((cards.filter (fun c => c.rank == r)).map Card.suit).Nodup := by
    apply List.Nodup.map_on _ hfn
    intro x hx y hy hxy
    have hxr : x.rank = r := by simpa using (List.mem_filter.1 hx).2
    have hyr : y.rank = r := by simpa using (List.mem_filter.1 hy).2
    cases x
    cases y
    simp_all
  have hlen := hmap.length_le_card
  rw [List.length_map] at hlen
  have hcard : Fintype.card Suit = 4 := rfl
  omega

/-- The multiplicities in pokercombos' sorted items are descending. -/
theorem vc_sorted (hand : List Card) :
    List.Sorted (fun a b : Nat => b ≤ a) ((Combos.items hand).map (fun p => p.2)) := by
  apply List.Pairwise.map _ _ (combos_items_sorted hand)
  intro a b hab
  rcases hab with h | ⟨h, _⟩ <;> omega

theorem vc_bounds {cards : List Card} (hnd : cards.Nodup) :
    ∀ v ∈ (Combos.items cards).map (fun p => p.2), 1 ≤ v ∧ v ≤ 4 := by
  intro v hv
  rcases List.mem_map.1 hv with ⟨q, hq, hq2⟩
  have hs := combos_items_mem hq
  subst hq2
  rw [hs.2]
  exact ⟨List.count_pos_iff.2 hs.1, rank_count_le_four hnd q.1⟩

theorem one_le_sum_len : ∀ (l : List Nat), (∀ v ∈ l, 1 ≤ v) → l.length ≤ l.sum
  | [], _ => le_refl 0
  | x :: xs, h => by
    have h1 := h x (List.mem_cons_self _ _)
    have h2 := one_le_sum_len xs (fun v hv => h v (List.mem_cons_of_mem _ hv))
    simp only [List.length_cons, List.sum_cons]
    omega

/-- The descending multiplicity profile of five cards with at most four of a
rank is one of six shapes. -/
theorem counts_shape (vc : List Nat) (hs : List.Sorted (fun a b : Nat => b ≤ a) vc)
    (hsum : vc.sum = 5) (hb : ∀ v ∈ vc, 1 ≤ v ∧ v ≤ 4) :
    vc = [1, 1, 1, 1, 1] ∨ vc = [2, 1, 1, 1] ∨ vc = [2, 2, 1] ∨
    vc = [3, 1, 1] ∨ vc = [3, 2] ∨ vc = [4, 1] := by
  rcases vc with _ | ⟨a, _ | ⟨b, _ | ⟨c, _ | ⟨d, _ | ⟨e, rest⟩⟩⟩⟩⟩
  · simp at hsum
  · have ha := hb a (by simp)
    simp at hsum
    exfalso
    omega
  · have ha := hb a (by simp)
    have hbv := hb b (by simp)
    have hba : b ≤ a := (List.sorted_cons.1 hs).1 b (by simp)
    have hsum2 : a + b = 5 := by simpa using hsum
    have hcase : a = 4 ∧ b = 1 ∨ a = 3 ∧ b = 2 := by omega
    rcases hcase with ⟨h1, h2⟩ | ⟨h1, h2⟩ <;> subst h1 <;> subst h2 <;> decide
  · have ha := hb a (by simp)
    have hbv := hb b (by simp)
    have hcv := hb c (by simp)
    have hba : b ≤ a := (List.sorted_cons.1 hs).1 b (by simp)
    have hcb : c ≤ b := (List.sorted_cons.1 (List.sorted_cons.1 hs).2).1 c (by simp)
    have hsum2 : a + b + c = 5 := by simp at hsum; omega
    have hcase : a = 3 ∧ b = 1 ∧ c = 1 ∨ a = 2 ∧ b = 2 ∧ c = 1 := by omega
    rcases hcase with ⟨h1, h2, h3⟩ | ⟨h1, h2, h3⟩ <;>
      subst h1 <;> subst h2 <;> subst h3 <;> decide
  · have ha := hb a (by simp)
    have hbv := hb b (by simp)
    have hcv := hb c (by simp)
    have hdv := hb d (by simp)
    have hba : b ≤ a := (List.sorted_cons.1 hs).1 b (by simp)
    have hcb : c ≤ b := (List.sorted_cons.1 (List.sorted_cons.1 hs).2).1 c (by simp)
    have hdc : d ≤ c :=
      (List.sorted_cons.1 (List.sorted_cons.1 (List.sorted_cons.1 hs).2).2).1 d (by simp)
    have hsum2 : a + b + c + d = 5 := by simp at hsum; omega
    have hcase : a = 2 ∧ b = 1 ∧ c = 1 ∧ d = 1 := by omega
    rcases hcase with ⟨h1, h2, h3, h4⟩
    subst h1; subst h2; subst h3; subst h4
    decide
  · rcases rest with _ | ⟨f, rest2⟩
    · have ha := hb a (by simp)
      have hbv := hb b (by simp)
      have hcv := hb c (by simp)
      have hdv := hb d (by simp)
      have hev := hb e (by simp)
      have hsum2 : a + b + c + d + e = 5 := by simp at hsum; omega
      have hcase : a = 1 ∧ b = 1 ∧ c = 1 ∧ d = 1 ∧ e = 1 := by omega
      rcases hcase with ⟨h1, h2, h3, h4, h5⟩
      subst h1; subst h2; subst h3; subst h4; subst h5
      decide
    · exfalso
      have hlen := one_le_sum_len (a :: b :: c :: d :: e :: f :: rest2)
        (fun v hv => (hb v hv).1)
      simp only [List.length_cons] at hlen
      omega

/-- In a duplicate-free flush the five ranks are pairwise distinct (two equal
ranks in the same suit would be the same card). -/
theorem flush_ranks_nodup {cards : List Card} (hnd : cards.Nodup)
    (hfl : Combos.isFlush cards) : (cards.map Card.rank).Nodup := by
  unfold Combos.isFlush Combos.suitsOf at hfl
  obtain ⟨s0, hserq⟩ := List.length_eq_one.1 hfl
  have hsuit : ∀ x ∈ cards, x.suit = s0 := by
    intro x hx
    have : x.suit ∈ (cards.map Card.suit).dedup :=
      List.mem_dedup.2 (List.mem_map_of_mem _ hx)
    rw [hserq] at this
    simpa using this
  apply List.Nodup.map_on _ hnd
  intro x hx y hy hxy
  cases x
  cases y
  have h1 := hsuit _ hx
  have h2 := hsuit _ hy
  simp_all

/-- Distinct ranks give the flat multiplicity profile `[1,1,1,1,1]`. -/
theorem nodup_vc {cards : List Card} (hrnd : (cards.map Card.rank).Nodup)
    (h5 : cards.length = 5) :
    (Combos.items cards).map (fun p => p.2) = [1, 1, 1, 1, 1] := by
  have hone : ∀ v ∈ (Combos.items cards).map (fun p => p.2), v = 1 := by
    intro v hv
    rcases List.mem_map.1 hv with ⟨q, hq, hq2⟩
    have hs := combos_items_mem hq
    subst hq2
    rw [hs.2]
    exact List.count_eq_one_of_mem hrnd hs.1
  have hlen : ((Combos.items cards).map (fun p => p.2)).length = 5 := by
    rw [List.length_map, (combos_items_perm cards).length_eq, List.length_map]
    show (cards.map Card.rank).dedup.length = 5
    rw [List.dedup_eq_self.2 hrnd, List.length_map, h5]
  have := List.eq_replicate_of_mem hone
  rw [this, hlen]
  rfl

/-- A straight needs five distinct ranks, so its profile has five entries. -/
theorem straight_vc_len {cards : List Card} (hst : Combos.isStraight cards) :
    ((Combos.items cards).map (fun p => p.2)).length = 5 := by
  rw [List.length_map, (combos_items_perm cards).length_eq, List.length_map]
  exact hst.1

/-! ### Category computation of poker.py per multiplicity profile -/

theorem broadway_implies_straight (cards : List Card)
    (h : Poker.ranksOf cards = [14, 13, 12, 11, 10]) : Poker.isStraight cards := by
  unfold Poker.isStraight
  rw [h]
  decide

theorem poker_all_4k {cards : List Card} (hfl : ¬ Poker.isFlush cards)
    (h4 : 4 ∈ Poker.vals cards) :
    (Poker.evaluateHand cards).all
      (fun x => decide ((x.1, x.2.1) = ("4k", 8))) = true := by
  simp only [Poker.evaluateHand]
  rw [if_neg (fun hc => hfl hc.1), if_neg (fun hc => hfl hc.1), if_pos h4]
  split
  · rfl
  split <;> rfl

theorem poker_all_fh {cards : List Card} (hfl : ¬ Poker.isFlush cards)
    (h4 : ¬ 4 ∈ Poker.vals cards) (h32 : 3 ∈ Poker.vals cards ∧ 2 ∈ Poker.vals cards) :
    (Poker.evaluateHand cards).all
      (fun x => decide ((x.1, x.2.1) = ("FH", 7))) = true := by
  simp only [Poker.evaluateHand]
  rw [if_neg (fun hc => hfl hc.1), if_neg (fun hc => hfl hc.1), if_neg h4, if_pos h32]
  split <;> rfl

theorem poker_all_3k {cards : List Card} (hfl : ¬ Poker.isFlush cards)
    (hst : ¬ Poker.isStraight cards) (h4 : ¬ 4 ∈ Poker.vals cards)
    (h2 : ¬ 2 ∈ Poker.vals cards) (h3 : 3 ∈ Poker.vals cards) :
    (Poker.evaluateHand cards).all
      (fun x => decide ((x.1, x.2.1) = ("3K", 4))) = true := by
  simp only [Poker.evaluateHand]
  rw [if_neg (fun hc => hfl hc.1), if_neg (fun hc => hfl hc.1), if_neg h4,
    if_neg (fun hc => h2 hc.2), if_neg hfl, if_neg hst, if_pos h3]
  split <;> rfl

theorem poker_all_2p {cards : List Card} (hfl : ¬ Poker.isFlush cards)
    (hst : ¬ Poker.isStraight cards) (h4 : ¬ 4 ∈ Poker.vals cards)
    (h3 : ¬ 3 ∈ Poker.vals cards) (hc2 : 2 ≤ (Poker.vals cards).count 2) :
    (Poker.evaluateHand cards).all
      (fun x => decide ((x.1, x.2.1) = ("2P", 3))) = true := by
  simp only [Poker.evaluateHand]
  rw [if_neg (fun hc => hfl hc.1), if_neg (fun hc => hfl hc.1), if_neg h4,
    if_neg (fun hc => h3 hc.1), if_neg hfl, if_neg hst, if_neg h3, if_pos hc2]
  split <;> rfl

theorem poker_all_pr {cards : List Card} (hfl : ¬ Poker.isFlush cards)
    (hst : ¬ Poker.isStraight cards) (h4 : ¬ 4 ∈ Poker.vals cards)
    (h3 : ¬ 3 ∈ Poker.vals cards) (hc2 : ¬ 2 ≤ (Poker.vals cards).count 2)
    (h2 : 2 ∈ Poker.vals cards) :
    (Poker.evaluateHand cards).all
      (fun x => decide ((x.1, x.2.1) = ("PR", 2))) = true := by
  simp only [Poker.evaluateHand]
  rw [if_neg (fun hc => hfl hc.1), if_neg (fun hc => hfl hc.1), if_neg h4,
    if_neg (fun hc => h3 hc.1), if_neg hfl, if_neg hst, if_neg h3, if_neg hc2,
    if_pos h2]
  split <;> rfl

theorem poker_all_hc {cards : List Card} (hfl : ¬ Poker.isFlush cards)
    (hst : ¬ Poker.isStraight cards) (h4 : ¬ 4 ∈ Poker.vals cards)
    (h3 : ¬ 3 ∈ Poker.vals cards) (h2 : ¬ 2 ∈ Poker.vals cards) :
    (Poker.evaluateHand cards).all
      (fun x => decide ((x.1, x.2.1) = ("HC", 1))) = true := by
  simp only [Poker.evaluateHand]
  rw [if_neg (fun hc => hfl hc.1), if_neg (fun hc => hfl hc.1), if_neg h4,
    if_neg (fun hc => h3 hc.1), if_neg hfl, if_neg hst, if_neg h3,
    if_neg (fun hcc => by rw [List.count_eq_zero.2 h2] at hcc; omega), if_neg h2]
  rfl

theorem poker_all_rf {cards : List Card} (hfl : Poker.isFlush cards)
    (hbw : Poker.ranksOf cards = [14, 13, 12, 11, 10]) :
    (Poker.evaluateHand cards).all
      (fun x => decide ((x.1, x.2.1) = ("RF", 10))) = true := by
  simp only [Poker.evaluateHand]
  rw [if_pos ⟨hfl, hbw⟩]
  rfl

theorem poker_all_sf {cards : List Card} (hfl : Poker.isFlush cards)
    (hst : Poker.isStraight cards)
    (hnbw : ¬ Poker.ranksOf cards = [14, 13, 12, 11, 10]) :
    (Poker.evaluateHand cards).all
      (fun x => decide ((x.1, x.2.1) = ("SF", 9))) = true := by
  simp only [Poker.evaluateHand]
  rw [if_neg (fun hc => hnbw hc.2), if_pos ⟨hfl, hst⟩]
  rfl

theorem poker_all_fl {cards : List Card} (hfl : Poker.isFlush cards)
    (hst : ¬ Poker.isStraight cards) (h4 : ¬ 4 ∈ Poker.vals cards)
    (h3 : ¬ 3 ∈ Poker.vals cards) :
    (Poker.evaluateHand cards).all
      (fun x => decide ((x.1, x.2.1) = ("FL", 6))) = true := by
  simp only [Poker.evaluateHand]
  rw [if_neg (fun hc => hst (broadway_implies_straight cards hc.2)),
    if_neg (fun hc => hst hc.2), if_neg h4, if_neg (fun hc => h3 hc.1), if_pos hfl]
  rfl

theorem poker_all_st {cards : List Card} (hfl : ¬ Poker.isFlush cards)
    (hst : Poker.isStraight cards) (h4 : ¬ 4 ∈ Poker.vals cards)
    (h3 : ¬ 3 ∈ Poker.vals cards) :
    (Poker.evaluateHand cards).all
      (fun x => decide ((x.1, x.2.1) = ("ST", 5))) = true := by
  simp only [Poker.evaluateHand]
  rw [if_neg (fun hc => hfl hc.1), if_neg (fun hc => hfl hc.1), if_neg h4,
    if_neg (fun hc => h3 hc.1), if_neg hfl, if_pos hst]
  rfl

/-! ### Category computation of pokercombos.py per multiplicity profile -/

theorem combos_all_41 {hand : List Card}
    (hns : ¬ (Combos.isStraight hand ∧ Combos.isFlush hand))
    (hvc : (Combos.items hand).map (fun p => p.2) = [4, 1]) :
    (Combos.evaluateHand hand).all (fun x => decide (x.1 = 2)) = true := by
  simp only [Combos.evaluateHand]
  rw [if_neg hns]
  split
  next hitems => rfl
  next i0 rest0 hitems =>
    rw [hitems] at hvc
    simp at hvc
    cases rest0 with
    | nil => simp [hvc.1]
    | cons i1 rest1 => simp [hvc.1]

theorem combos_all_32 {hand : List Card}
    (hns : ¬ (Combos.isStraight hand ∧ Combos.isFlush hand))
    (hvc : (Combos.items hand).map (fun p => p.2) = [3, 2]) :
    (Combos.evaluateHand hand).all (fun x => decide (x.1 = 3)) = true := by
  simp only [Combos.evaluateHand]
  rw [if_neg hns]
  split
  next hitems => rfl
  next i0 rest0 hitems =>
    rw [hitems] at hvc
    simp at hvc
    cases rest0 with
    | nil => simp [hvc.1]
    | cons i1 rest1 =>
      simp at hvc
      simp [hvc.1, hvc.2.1]

theorem combos_all_311 {hand : List Card} (hnf : ¬ Combos.isFlush hand)
    (hnst : ¬ Combos.isStraight hand)
    (hvc : (Combos.items hand).map (fun p => p.2) = [3, 1, 1]) :
    (Combos.evaluateHand hand).all (fun x => decide (x.1 = 6)) = true := by
  simp only [Combos.evaluateHand]
  rw [if_neg (fun hc => hnf hc.2)]
  split
  next hitems => rfl
  next i0 rest0 hitems =>
    rw [hitems] at hvc
    simp at hvc
    cases rest0 with
    | nil => simp [hvc.1]
    | cons i1 rest1 =>
      simp at hvc
      cases rest1 with
      | nil => simp [hvc.1, hvc.2.1, hnf, hnst]
      | cons i2 rest2 => simp [hvc.1, hvc.2.1, hnf, hnst]

theorem combos_all_221 {hand : List Card} (hnf : ¬ Combos.isFlush hand)
    (hnst : ¬ Combos.isStraight hand)
    (hvc : (Combos.items hand).map (fun p => p.2) = [2, 2, 1]) :
    (Combos.evaluateHand hand).all (fun x => decide (x.1 = 7)) = true := by
  simp only [Combos.evaluateHand]
  rw [if_neg (fun hc => hnf hc.2)]
  split
  next hitems => rfl
  next i0 rest0 hitems =>
    rw [hitems] at hvc
    simp at hvc
    cases rest0 with
    | nil => simp [hvc.1, hnf, hnst]
    | cons i1 rest1 =>
      simp at hvc
      cases rest1 with
      | nil => simp [hvc.1, hvc.2.1, hnf, hnst]
      | cons i2 rest2 => simp [hvc.1, hvc.2.1, hnf, hnst]

theorem combos_all_2111 {hand : List Card} (hnf : ¬ Combos.isFlush hand)
    (hnst : ¬ Combos.isStraight hand)
    (hvc : (Combos.items hand).map (fun p => p.2) = [2, 1, 1, 1]) :
    (Combos.evaluateHand hand).all (fun x => decide (x.1 = 8)) = true := by
  simp only [Combos.evaluateHand]
  rw [if_neg (fun hc => hnf hc.2)]
  split
  next hitems => rfl
  next i0 rest0 hitems =>
    rw [hitems] at hvc
    simp at hvc
    cases rest0 with
    | nil => simp [hvc.1, hnf, hnst]
    | cons i1 rest1 =>
      simp at hvc
      cases rest1 with
      | nil => simp [hvc.1, hvc.2.1, hnf, hnst]
      | cons i2 rest2 =>
        simp at hvc
        cases rest2 with
        | nil => simp [hvc.1, hvc.2.1, hnf, hnst]
        | cons i3 rest3 => simp [hvc.1, hvc.2.1, hnf, hnst]

theorem combos_all_rf {hand : List Card} (hst : Combos.isStraight hand)
    (hfl : Combos.isFlush hand)
    (hbw : sortAsc (Combos.ranksOf hand) = [10, 11, 12, 13, 14]) :
    (Combos.evaluateHand hand).all (fun x => decide (x.1 = 0)) = true := by
  simp only [Combos.evaluateHand]
  rw [if_pos ⟨hst, hfl⟩, if_pos ⟨hbw, hfl⟩]
  rfl

theorem combos_all_sf {hand : List Card} (hst : Combos.isStraight hand)
    (hfl : Combos.isFlush hand)
    (hnbw : ¬ sortAsc (Combos.ranksOf hand) = [10, 11, 12, 13, 14]) :
    (Combos.evaluateHand hand).all (fun x => decide (x.1 = 1)) = true := by
  simp only [Combos.evaluateHand]
  rw [if_pos ⟨hst, hfl⟩, if_neg (fun hc => hnbw hc.1)]
  rfl

theorem combos_all_fl {hand : List Card} (hfl : Combos.isFlush hand)
    (hnst : ¬ Combos.isStraight hand)
    (hvc : (Combos.items hand).map (fun p => p.2) = [1, 1, 1, 1, 1]) :
    (Combos.evaluateHand hand).all (fun x => decide (x.1 = 4)) = true := by
  simp only [Combos.evaluateHand]
  rw [if_neg (fun hc => hnst hc.1)]
  split
  next hitems => rfl
  next i0 rest0 hitems =>
    rw [hitems] at hvc
    simp at hvc
    simp [hvc.1, hfl]

theorem combos_all_st {hand : List Card} (hnf : ¬ Combos.isFlush hand)
    (hst : Combos.isStraight hand)
    (hvc : (Combos.items hand).map (fun p => p.2) = [1, 1, 1, 1, 1]) :
    (Combos.evaluateHand hand).all (fun x => decide (x.1 = 5)) = true := by
  simp only [Combos.evaluateHand]
  rw [if_neg (fun hc => hnf hc.2)]
  split
  next hitems => rfl
  next i0 rest0 hitems =>
    rw [hitems] at hvc
    simp at hvc
    simp [hvc.1, hnf, hst]

theorem combos_all_hc {hand : List Card} (hnf : ¬ Combos.isFlush hand)
    (hnst : ¬ Combos.isStraight hand)
    (hvc : (Combos.items hand).map (fun p => p.2) = [1, 1, 1, 1, 1]) :
    (Combos.evaluateHand hand).all (fun x => decide (x.1 = 9)) = true := by
  simp only [Combos.evaluateHand]
  rw [if_neg (fun hc => hnf hc.2)]
  split
  next hitems => rfl
  next i0 rest0 hitems =>
    rw [hitems] at hvc
    simp at hvc
    simp [hvc.1, hnf, hnst]

/-! ### C9: the two classifiers correspond -/

theorem all_some_poker {cards : List Card} {t L : String} {r R : Nat} {bc : List Card}
    (hv : Poker.evaluateHand cards = some (t, r, bc))
    (hp : (Poker.evaluateHand cards).all
      (fun x => decide ((x.1, x.2.1) = (L, R))) = true) :
    t = L ∧ r = R := by
  rw [hv] at hp
  simpa [Option.all] using hp

theorem all_some_combos {hand : List Card} {cat C : Nat} {tb : List Int}
    (hw : Combos.evaluateHand hand = some (cat, tb))
    (hc : (Combos.evaluateHand hand).all (fun x => decide (x.1 = C)) = true) :
    cat = C := by
  rw [hw] at hc
  simpa [Option.all] using hc

theorem not_flush_of_vc {cards : List Card} (hnd : cards.Nodup) (h5 : cards.length = 5)
    (h : (Combos.items cards).map (fun p => p.2) ≠ [1, 1, 1, 1, 1]) :
    ¬ Combos.isFlush cards :=
  fun hf => h (nodup_vc (flush_ranks_nodup hnd hf) h5)

theorem not_straight_of_vc_len {cards : List Card}
    (h : ((Combos.items cards).map (fun p => p.2)).length ≠ 5) :
    ¬ Combos.isStraight cards :=
  fun hs => h (straight_vc_len hs)

theorem mem_vals {cards : List Card} {n : Nat} {l : List Nat}
    (hvc : (Combos.items cards).map (fun p => p.2) = l) (hn : n ∈ l) :
    n ∈ Poker.vals cards :=
  (poker_vals_perm cards).mem_iff.2 (by rw [hvc]; exact hn)

theorem not_mem_vals {cards : List Card} {n : Nat} {l : List Nat}
    (hvc : (Combos.items cards).map (fun p => p.2) = l) (hn : ¬ n ∈ l) :
    ¬ n ∈ Poker.vals cards :=
  fun h => hn (by rw [← hvc]; exact (poker_vals_perm cards).mem_iff.1 h)

theorem count_vals {cards : List Card} {l : List Nat}
    (hvc : (Combos.items cards).map (fun p => p.2) = l) :
    (Poker.vals cards).count 2 = l.count 2 := by
  rw [(poker_vals_perm cards).count_eq, hvc]

/-- C9: on every 5-card hand of pairwise-distinct cards both classifiers
succeed and agree on the category under the ten-category correspondence:
poker.py's numeric rank r (10 best down to 1) and pokercombos.py's index cat
(0 best up to 9) satisfy r + cat = 10, and poker.py's label is the cat-th
entry of [RF, SF, 4k, FH, FL, ST, 3K, 2P, PR, HC]. -/
theorem c9_classifiers_correspond (cards : List Card) (h5 : cards.length = 5)
    (hnd : cards.Nodup) :
    ∃ t r bc cat tb,
      Poker.evaluateHand cards = some (t, r, bc) ∧
      Combos.evaluateHand cards = some (cat, tb) ∧
      r + cat = 10 ∧
      (["RF", "SF", "4k", "FH", "FL", "ST", "3K", "2P", "PR", "HC"] :
        List String).get? cat = some t := by
  rcases Option.isSome_iff_exists.1 (poker_evaluateHand_isSome h5) with ⟨⟨t, r, bc⟩, hv⟩
  rcases Option.isSome_iff_exists.1 (combos_evaluateHand_isSome h5) with ⟨⟨cat, tb⟩, hw⟩
  have hvsum : ((Combos.items cards).map (fun p => p.2)).sum = 5 := by
    rw [combos_items_sum, h5]
  have hshape := counts_shape _ (vc_sorted cards) hvsum (vc_bounds hnd)
  rcases hshape with hvc | hvc | hvc | hvc | hvc | hvc
  · -- profile [1,1,1,1,1]: no pair; RF / SF / FL / ST / HC by flush and straight
    by_cases hf : Combos.isFlush cards
    · by_cases hst : Combos.isStraight cards
      · by_cases hbw : sortAsc (Combos.ranksOf cards) = [10, 11, 12, 13, 14]
        · have hpbw : Poker.ranksOf cards = [14, 13, 12, 11, 10] :=
            (broadway_sort_iff (cards.map Card.rank)).2 hbw
          obtain ⟨ht, hr⟩ := all_some_poker hv (poker_all_rf ((flush_iff cards).2 hf) hpbw)
          have hcat := all_some_combos hw (combos_all_rf hst hf hbw)
          subst ht; subst hr; subst hcat
          exact ⟨_, _, bc, _, tb, hv, hw, rfl, rfl⟩
        · have hnpbw : ¬ Poker.ranksOf cards = [14, 13, 12, 11, 10] :=
            fun h => hbw ((broadway_sort_iff (cards.map Card.rank)).1 h)
          obtain ⟨ht, hr⟩ := all_some_poker hv
            (poker_all_sf ((flush_iff cards).2 hf) ((straight_iff cards).2 hst) hnpbw)
          have hcat := all_some_combos hw (combos_all_sf hst hf hbw)
          subst ht; subst hr; subst hcat
          exact ⟨_, _, bc, _, tb, hv, hw, rfl, rfl⟩
      · obtain ⟨ht, hr⟩ := all_some_poker hv
          (poker_all_fl ((flush_iff cards).2 hf)
            (fun hp => hst ((straight_iff cards).1 hp))
            (not_mem_vals hvc (by decide)) (not_mem_vals hvc (by decide)))
        have hcat := all_some_combos hw (combos_all_fl hf hst hvc)
        subst ht; subst hr; subst hcat
        exact ⟨_, _, bc, _, tb, hv, hw, rfl, rfl⟩
    · by_cases hst : Combos.isStraight cards
      · obtain ⟨ht, hr⟩ := all_some_poker hv
          (poker_all_st (fun hp => hf ((flush_iff cards).1 hp))
            ((straight_iff cards).2 hst)
            (not_mem_vals hvc (by decide)) (not_mem_vals hvc (by decide)))
        have hcat := all_some_combos hw (combos_all_st hf hst hvc)
        subst ht; subst hr; subst hcat
        exact ⟨_, _, bc, _, tb, hv, hw, rfl, rfl⟩
      · obtain ⟨ht, hr⟩ := all_some_poker hv
          (poker_all_hc (fun hp => hf ((flush_iff cards).1 hp))
            (fun hp => hst ((straight_iff cards).1 hp))
            (not_mem_vals hvc (by decide)) (not_mem_vals hvc (by decide))
            (not_mem_vals hvc (by decide)))
        have hcat := all_some_combos hw (combos_all_hc hf hst hvc)
        subst ht; subst hr; subst hcat
        exact ⟨_, _, bc, _, tb, hv, hw, rfl, rfl⟩
  · -- profile [2,1,1,1]: one pair
    have hnf : ¬ Combos.isFlush cards := not_flush_of_vc hnd h5 (by rw [hvc]; decide)
    have hnst : ¬ Combos.isStraight cards :=
      not_straight_of_vc_len (by rw [hvc]; decide)
    obtain ⟨ht, hr⟩ := all_some_poker hv
      (poker_all_pr (fun hp => hnf ((flush_iff cards).1 hp))
        (fun hp => hnst ((straight_iff cards).1 hp))
        (not_mem_vals hvc (by decide)) (not_mem_vals hvc (by decide))
        (by rw [count_vals hvc]; decide) (mem_vals hvc (by decide)))
    have hcat := all_some_combos hw (combos_all_2111 hnf hnst hvc)
    subst ht; subst hr; subst hcat
    exact ⟨_, _, bc, _, tb, hv, hw, rfl, rfl⟩
  · -- profile [2,2,1]: two pair
    have hnf : ¬ Combos.isFlush cards := not_flush_of_vc hnd h5 (by rw [hvc]; decide)
    have hnst : ¬ Combos.isStraight cards :=
      not_straight_of_vc_len (by rw [hvc]; decide)
    obtain ⟨ht, hr⟩ := all_some_poker hv
      (poker_all_2p (fun hp => hnf ((flush_iff cards).1 hp))
        (fun hp => hnst ((straight_iff cards).1 hp))
        (not_mem_vals hvc (by decide)) (not_mem_vals hvc (by decide))
        (by rw [count_vals hvc]; decide))
    have hcat := all_some_combos hw (combos_all_221 hnf hnst hvc)
    subst ht; subst hr; subst hcat
    exact ⟨_, _, bc, _, tb, hv, hw, rfl, rfl⟩
  · -- profile [3,1,1]: three of a kind
    have hnf : ¬ Combos.isFlush cards := not_flush_of_vc hnd h5 (by rw [hvc]; decide)
    have hnst : ¬ Combos.isStraight cards :=
      not_straight_of_vc_len (by rw [hvc]; decide)
    obtain ⟨ht, hr⟩ := all_some_poker hv
      (poker_all_3k (fun hp => hnf ((flush_iff cards).1 hp))
        (fun hp => hnst ((straight_iff cards).1 hp))
        (not_mem_vals hvc (by decide)) (not_mem_vals hvc (by decide))
        (mem_vals hvc (by decide)))
    have hcat := all_some_combos hw (combos_all_311 hnf hnst hvc)
    subst ht; subst hr; subst hcat
    exact ⟨_, _, bc, _, tb, hv, hw, rfl, rfl⟩
  · -- profile [3,2]: full house
    have hnf : ¬ Combos.isFlush cards := not_flush_of_vc hnd h5 (by rw [hvc]; decide)
    obtain ⟨ht, hr⟩ := all_some_poker hv
      (poker_all_fh (fun hp => hnf ((flush_iff cards).1 hp))
        (not_mem_vals hvc (by decide))
        ⟨mem_vals hvc (by decide), mem_vals hvc (by decide)⟩)
    have hcat := all_some_combos hw
      (combos_all_32 (fun hc => hnf hc.2) hvc)
    subst ht; subst hr; subst hcat
    exact ⟨_, _, bc, _, tb, hv, hw, rfl, rfl⟩
  · -- profile [4,1]: four of a kind
    have hnf : ¬ Combos.isFlush cards := not_flush_of_vc hnd h5 (by rw [hvc]; decide)
    obtain ⟨ht, hr⟩ := all_some_poker hv
      (poker_all_4k (fun hp => hnf ((flush_iff cards).1 hp))
        (mem_vals hvc (by decide)))
    have hcat := all_some_combos hw
      (combos_all_41 (fun hc => hnf hc.2) hvc)
    subst ht; subst hr; subst hcat
    exact ⟨_, _, bc, _, tb, hv, hw, rfl, rfl⟩

theorem c9_classifiers_correspond_witness :
    ([⟨14, .s⟩, ⟨13, .h⟩, ⟨12, .c⟩, ⟨11, .d⟩, ⟨9, .s⟩] : List Card).length = 5 ∧
    ([⟨14, .s⟩, ⟨13, .h⟩, ⟨12, .c⟩, ⟨11, .d⟩, ⟨9, .s⟩] : List Card).Nodup ∧
    (∃ t r bc cat tb,
      Poker.evaluateHand [⟨14, .s⟩, ⟨13, .h⟩, ⟨12, .c⟩, ⟨11, .d⟩, ⟨9, .s⟩] =
        some (t, r, bc) ∧
      Combos.evaluateHand [⟨14, .s⟩, ⟨13, .h⟩, ⟨12, .c⟩, ⟨11, .d⟩, ⟨9, .s⟩] =
        some (cat, tb) ∧
      r + cat = 10 ∧
      (["RF", "SF", "4k", "FH", "FL", "ST", "3K", "2P", "PR", "HC"] :
        List String).get? cat = some t) :=
  ⟨by decide, by decide,
    c9_classifiers_correspond [⟨14, .s⟩, ⟨13, .h⟩, ⟨12, .c⟩, ⟨11, .d⟩, ⟨9, .s⟩]
      (by decide) (by decide)⟩
